import Mathlib

/-!
Verification of the data-cleaning pipeline of `Cleanup.py` and the reporting
core of `Analytics.py` (repository SebKyle/DataSet_Cleanup).

The pandas DataFrame is embedded shallowly as a `Frame`: a list of column
labels together with a list of rows, each row a positional list of cells.
A cell is either missing (`na`, modelling NaN), free text (`str`), or a
numeric value (`num`, modelling a float by an exact rational).

Notes on the embedding:
* Python string helpers (`strip`, `lower`, `upper`, `title`, the regex
  collapse of internal whitespace) are modelled character-exactly on the
  ASCII range (the same range Lean's own `Char.toLower` handles); the
  whitespace set is space, tab, CR and LF.
* pandas `Series.str` methods turn non-string cells into NaN; the model
  (`strOp`) does the same.
* `mean`/`std` (with the default `ddof = 1`) are undefined (NaN) on fewer
  than one resp. two observations; the model returns `Option ℚ` and the
  outlier stage, like the Python comparisons against NaN bounds, keeps no
  row when the standard deviation is undefined.
* The 3-sigma band `max(0, mu - 3*sigma) <= s <= mu + 3*sigma` is stated
  over the square `v = sigma^2` (sample variance) so that the filter stays
  executable over `ℚ`; the theorem for claim C1 proves this square-free
  predicate equivalent to the band written with `sigma` itself.
* File loading/saving and printing are outside the model; `clean_dataset`
  takes the loaded `Frame` directly.
-/

namespace DataSetCleanup

/-- One cell of the table: missing (NaN), text, or numeric. -/
inductive Cell where
  | na : Cell
  | str : String → Cell
  | num : ℚ → Cell
deriving DecidableEq, Repr

abbrev Row := List Cell

/-- A table: column labels plus positional rows. -/
structure Frame where
  cols : List String
  rows : List Row
deriving DecidableEq, Repr

/-- `True` for cells that can appear in a freshly `read_csv`-loaded object
column: missing or text, never an already-typed number. -/
def Cell.isTextual : Cell → Bool
  | Cell.num _ => false
  | _ => true

def Cell.isNum : Cell → Bool
  | Cell.num _ => true
  | _ => false

/-! ### Python string primitives (ASCII fragment) -/

/-- ASCII whitespace: space, tab, LF, CR. -/
def wsChars : List Char := [' ', Char.ofNat 9, Char.ofNat 10, Char.ofNat 13]

def isWs (c : Char) : Bool := decide (c ∈ wsChars)

/-- The 26 upper/lower ASCII letter pairs. -/
def asciiCase : List (Char × Char) :=
  [('A', 'a'), ('B', 'b'), ('C', 'c'), ('D', 'd'), ('E', 'e'), ('F', 'f'),
   ('G', 'g'), ('H', 'h'), ('I', 'i'), ('J', 'j'), ('K', 'k'), ('L', 'l'),
   ('M', 'm'), ('N', 'n'), ('O', 'o'), ('P', 'p'), ('Q', 'q'), ('R', 'r'),
   ('S', 's'), ('T', 't'), ('U', 'u'), ('V', 'v'), ('W', 'w'), ('X', 'x'),
   ('Y', 'y'), ('Z', 'z')]

/-- `str.lower` on one character (ASCII range). -/
def lowerChar (c : Char) : Char :=
  match asciiCase.find? (fun p => p.fst = c) with
  | some p => p.snd
  | none => c

/-- `str.upper` on one character (ASCII range). -/
def upperChar (c : Char) : Char :=
  match asciiCase.find? (fun p => p.snd = c) with
  | some p => p.fst
  | none => c

def isAsciiAlpha (c : Char) : Bool :=
  (decide (Char.ofNat 65 ≤ c) && decide (c ≤ Char.ofNat 90)) ||
  (decide (Char.ofNat 97 ≤ c) && decide (c ≤ Char.ofNat 122))

def pyLower (s : String) : String := String.mk (s.data.map lowerChar)

def pyUpper (s : String) : String := String.mk (s.data.map upperChar)

/-- `str.strip` on a character list: drop leading and trailing whitespace. -/
def stripL (l : List Char) : List Char :=
  ((l.dropWhile isWs).reverse.dropWhile isWs).reverse

def pystrip (s : String) : String := String.mk (stripL s.data)

/-- The regex replacement of every run of whitespace by a single space
(`.str.replace(r'\s+', ' ', regex=True)`), one character at a time; the
flag remembers whether the previous character was whitespace. -/
def collapseAux : Bool → List Char → List Char
  | _, [] => []
  | prevWs, c :: cs =>
    if isWs c then
      if prevWs then collapseAux true cs else ' ' :: collapseAux true cs
    else
      c :: collapseAux false cs

def collapseWs (s : String) : String := String.mk (collapseAux false s.data)

/-- `str.title` (ASCII fragment): a letter is upper-cased after a
non-letter and lower-cased after a letter. -/
def titleAux : Bool → List Char → List Char
  | _, [] => []
  | prevAlpha, c :: cs =>
    (if isAsciiAlpha c then (if prevAlpha then lowerChar c else upperChar c) else c)
      :: titleAux (isAsciiAlpha c) cs

def pyTitle (s : String) : String := String.mk (titleAux false s.data)

/-! ### Numeric parsing (`pd.to_numeric` on fixed-point decimal text) -/

def digitVal (c : Char) : Nat := c.toNat - 48

def natOfDigits (l : List Char) : Nat := l.foldl (fun n c => 10 * n + digitVal c) 0

/-- Parse an optionally signed fixed-point decimal (after stripping
whitespace); anything else is `none`, which `errors='coerce'` turns into
NaN.  Exponent/inf/nan spellings are not modelled. -/
def parseNumQ (s : String) : Option ℚ :=
  let l := stripL s.data
  let signed : Bool × List Char :=
    match l with
    | '-' :: t => (true, t)
    | '+' :: t => (false, t)
    | t => (false, t)
  let ip := signed.snd.takeWhile (fun c => c ≠ '.')
  let fp := (signed.snd.dropWhile (fun c => c ≠ '.')).drop 1
  if !(ip.isEmpty && fp.isEmpty) && ip.all Char.isDigit && fp.all Char.isDigit then
    let mag : ℚ := (natOfDigits ip : ℚ) + (natOfDigits fp : ℚ) / ((10 : ℚ) ^ fp.length)
    some (if signed.fst then -mag else mag)
  else
    none

/-- `str.replace(',', '')`. -/
def removeCommas (s : String) : String := String.mk (s.data.filter (fun c => c ≠ ','))

/-! ### Field registry: the raw column labels bound in `Cleanup.py` -/

/-- An apostrophe, kept out of string literals. -/
def apos : String := String.mk [Char.ofNat 39]

def salary_col : String :=
  "what is your annual salary? (you" ++ apos ++
  "ll indicate the currency in a later question. if you are part-time or hourly, please enter an annualized equivalent -- what you would earn if you worked the job 40 hours a week, 52 weeks a year.)"

def bonus_col : String :=
  "how much additional monetary compensation do you get, if any (for example, bonuses or overtime in an average year)? please only include monetary compensation here, not the value of benefits."

def age_col : String := "how old are you?"

def job_title_col : String := "job title"

def currency_col : String := "please indicate the currency"

def other_currency_col : String := "if \"other,\" please indicate the currency here: "

def country_col : String := "what country do you work in?"

/-- The required fields, in the order the source iterates over them. -/
def required_fields : List String :=
  [age_col, job_title_col, salary_col, currency_col, country_col]

/-! ### Alias tables -/

/-- First-match association-list lookup (Python `dict.get` on these
literal tables). -/
def tableGet {α : Type} : List (String × α) → String → Option α
  | [], _ => none
  | p :: t, k => if p.fst = k then some p.snd else tableGet t k

def currency_mapping : List (String × String) :=
  [("US", "USD"), ("DOLLARS", "USD"), ("US DOLLAR", "USD"),
   ("POUND", "GBP"), ("POUNDS", "GBP")]

def other_currency_mapping_lower : List (String × String) :=
  [("philippine peso", "PHP"), ("philippine pesos", "PHP"),
   ("php (philippine peso)", "PHP"), ("php philippine peso", "PHP"),
   ("indian rupees", "INR"), ("indian rupee", "INR"), ("rupees", "INR"),
   ("inr (indian rupee)", "INR"),
   ("mexican peso", "MXN"), ("mexican pesos", "MXN"), ("peso mexicano", "MXN"),
   ("norwegian kroner", "NOK"), ("norwegian kroner (nok)", "NOK"),
   ("polish złoty", "PLN"), ("polish zloty", "PLN"), ("pln (polish zloty)", "PLN"),
   ("pln (zwoty)", "PLN"), ("złoty", "PLN"), ("zloty", "PLN"),
   ("american dollars", "USD"), ("us dollar", "USD"), ("us dollars", "USD"),
   ("australian dollars", "AUD"), ("aud australian", "AUD"), ("australian dollar", "AUD"),
   ("thai baht", "THB"), ("baht", "THB"),
   ("korean won", "KRW"), ("krw (korean won)", "KRW"),
   ("rmb (chinese yuan)", "CNY"), ("china rmb", "CNY"), ("chinese yuan", "CNY"),
   ("yuan", "CNY"), ("rmb", "CNY"),
   ("israeli shekels", "ILS"), ("israeli shekel", "ILS"), ("ils (shekel)", "ILS"),
   ("nis (new israeli shekel)", "ILS"), ("new israeli shekel", "ILS"),
   ("ils/nis", "ILS"), ("shekel", "ILS"), ("shekels", "ILS"), ("nis", "ILS"),
   ("br$", "BRL"), ("brl (r$)", "BRL"), ("brazilian real", "BRL"),
   ("argentine peso", "ARS"), ("argentinian peso", "ARS"),
   ("argentinian peso (ars)", "ARS"), ("peso argentino", "ARS"),
   ("danish kroner", "DKK"), ("danish krone", "DKK"),
   ("taiwanese dollars", "TWD"), ("taiwanese dollar", "TWD"), ("taiwan dollar", "TWD"),
   ("singapore dollara", "SGD"), ("singapore dollars", "SGD"),
   ("pesos colombianos", "COP"), ("colombian peso", "COP"),
   ("croatian kuna", "HRK"), ("kuna", "HRK"),
   ("czech crowns", "CZK"), ("czech crown", "CZK"),
   ("equity", "")]

def country_mapping_lower : List (String × String) :=
  [("us", "United States"), ("usa", "United States"), ("u.s.", "United States"),
   ("u.s.a.", "United States"), ("u.s", "United States"),
   ("united states", "United States"), ("united states of america", "United States"),
   ("the united states", "United States"), ("united state", "United States"),
   ("united sates", "United States"), ("united stares", "United States"),
   ("united stated", "United States"), ("united stateds", "United States"),
   ("united statees", "United States"), ("united statea", "United States"),
   ("united statesp", "United States"), ("united statew", "United States"),
   ("united statss", "United States"), ("united stattes", "United States"),
   ("united statues", "United States"), ("united status", "United States"),
   ("united statws", "United States"), ("united sttes", "United States"),
   ("unitedstates", "United States"), ("united state of america", "United States"),
   ("united sates of america", "United States"),
   ("united states of american", "United States"),
   ("united states of americas", "United States"),
   ("united states is america", "United States"),
   ("unites states", "United States"),
   ("uk", "United Kingdom"), ("u.k.", "United Kingdom"),
   ("britain", "United Kingdom"), ("great britain", "United Kingdom"),
   ("england", "United Kingdom"), ("scotland", "United Kingdom"),
   ("wales", "United Kingdom"), ("northern ireland", "United Kingdom"),
   ("united kindom", "United Kingdom"), ("united kingdomk", "United Kingdom"),
   ("uae", "United Arab Emirates"), ("u.a.e.", "United Arab Emirates")]

/-! ### Frame primitives -/

/-- Index of the first column with the given label. -/
def colIdx : List String → String → Option Nat
  | [], _ => none
  | c :: cs, d => if c = d then some 0 else (colIdx cs d).map (· + 1)

/-- The cell of row `r` under column label `c` (NaN when the column is
absent or the row is short). -/
def getC (cols : List String) (r : Row) (c : String) : Cell :=
  match colIdx cols c with
  | some i => r.getD i Cell.na
  | none => Cell.na

/-- Rewrite the cell of `r` under column `c` through `g` (identity when
the column is absent). -/
def rowMapAt (cols : List String) (c : String) (g : Cell → Cell) (r : Row) : Row :=
  match colIdx cols c with
  | some i => r.set i (g (r.getD i Cell.na))
  | none => r

/-- Apply a cell transform down one column (`df[c] = df[c].map(g)`); the
pipeline only uses it under an explicit presence check. -/
def mapCol (c : String) (g : Cell → Cell) (f : Frame) : Frame :=
  ⟨f.cols, f.rows.map (rowMapAt f.cols c g)⟩

/-- Keep the rows satisfying a boolean mask (`df = df[mask]`). -/
def filterRows (p : List String → Row → Bool) (f : Frame) : Frame :=
  ⟨f.cols, f.rows.filter (p f.cols)⟩

/-- Series-level `.str` access: non-strings (including numbers) become NaN. -/
def strOp (g : String → String) : Cell → Cell
  | Cell.str s => Cell.str (g s)
  | _ => Cell.na

/-! ### Stage 1: `df.drop_duplicates()` -/

def dedupAux : List Row → List Row → List Row
  | _, [] => []
  | seen, r :: rs =>
    if r ∈ seen then dedupAux seen rs else r :: dedupAux (r :: seen) rs

/-- Exact full-row duplicate removal keeping the first occurrence. -/
def dedupRows (l : List Row) : List Row := dedupAux [] l

def dedupStage (f : Frame) : Frame := ⟨f.cols, dedupRows f.rows⟩

/-! ### Stage 2: lower-case the column labels -/

def lowerStage (f : Frame) : Frame := ⟨f.cols.map pyLower, f.rows⟩

/-! ### Stage 3: salary text to numeric -/

/-- `pd.to_numeric(col.astype(str).str.replace(',', ''), errors='coerce')`:
NaN prints as `"nan"` and comes back NaN, a float round-trips, text is
parsed after comma removal and otherwise coerced to NaN. -/
def salaryParseCell : Cell → Cell
  | Cell.na => Cell.na
  | Cell.num q => Cell.num q
  | Cell.str s =>
    match parseNumQ (removeCommas s) with
    | some q => Cell.num q
    | none => Cell.na

def parseStage (f : Frame) : Frame :=
  if salary_col ∈ f.cols then mapCol salary_col salaryParseCell f else f

/-! ### Stage 4: `df[bonus_col].fillna(0)` -/

def fillnaZero : Cell → Cell
  | Cell.na => Cell.num 0
  | c => c

def bonusStage (f : Frame) : Frame :=
  if bonus_col ∈ f.cols then mapCol bonus_col fillnaZero f else f

/-! ### Stage 5: required-field enforcement -/

/-- The per-field row mask: salary must be a number strictly above zero
(`notna & (col > 0)`); any other required field must be non-missing and
non-blank after strip (`notna & (astype(str).str.strip() != '')`; a
numeric cell prints as a non-blank string, hence passes). -/
def requiredFieldPred (cols : List String) (fld : String) (r : Row) : Bool :=
  if fld = salary_col then
    match getC cols r fld with
    | Cell.num q => decide (0 < q)
    | _ => false
  else
    match getC cols r fld with
    | Cell.na => false
    | Cell.str s => decide (pystrip s ≠ "")
    | Cell.num _ => true

/-- One iteration of the `for field in required_fields` loop. -/
def checkRequired (fld : String) (f : Frame) : Frame :=
  if fld ∈ f.cols then filterRows (fun cols r => requiredFieldPred cols fld r) f else f

def requiredFold (fs : List String) (f : Frame) : Frame :=
  fs.foldl (fun g fld => checkRequired fld g) f

def requiredStage (f : Frame) : Frame := requiredFold required_fields f

/-! ### Stage 6: 3-sigma outlier trimming -/

/-- The numeric salary observations (`mean`/`std` skip NaN). -/
def salariesOf (f : Frame) : List ℚ :=
  f.rows.filterMap (fun r =>
    match getC f.cols r salary_col with
    | Cell.num q => some q
    | _ => none)

def meanQ (xs : List ℚ) : ℚ := xs.sum / (xs.length : ℚ)

/-- Sample variance (`ddof = 1`); undefined (NaN) below two observations. -/
def sampleVar (xs : List ℚ) : Option ℚ :=
  if 2 ≤ xs.length then
    some ((xs.map (fun x => (x - meanQ xs) ^ 2)).sum / ((xs.length : ℚ) - 1))
  else
    none

/-- `max(0, mu - 3*sigma) <= s <= mu + 3*sigma` with `v = sigma ^ 2`,
written square-free so it is decidable over `ℚ` (see the C1 theorem for
the equivalence with the band stated via `sigma`). -/
def keep3sigma (mu v s : ℚ) : Bool :=
  decide (0 ≤ s ∧ (mu ≤ s ∨ (mu - s) ^ 2 ≤ 9 * v) ∧ (s ≤ mu ∨ (s - mu) ^ 2 ≤ 9 * v))

/-- The outlier filter: when `std` is NaN (fewer than two observations)
the comparison `salary <= mean + 3*std` is false for every row, so the
stage empties the frame; rows whose salary cell is not numeric likewise
fail the NaN comparison. -/
def outlierStage (f : Frame) : Frame :=
  if salary_col ∈ f.cols then
    match sampleVar (salariesOf f) with
    | some v =>
      filterRows (fun cols r =>
        match getC cols r salary_col with
        | Cell.num s => keep3sigma (meanQ (salariesOf f)) v s
        | _ => false) f
    | none => ⟨f.cols, []⟩
  else f

/-! ### Stages 7-9: currency, other-currency and country canonicalization -/

/-- `.str.strip().str.upper()` followed by `.replace(currency_mapping)`. -/
def currencyCanonCell (c : Cell) : Cell :=
  match strOp (fun s => pyUpper (pystrip s)) c with
  | Cell.str v => Cell.str ((tableGet currency_mapping v).getD v)
  | x => x

def currencyStage (f : Frame) : Frame :=
  if currency_col ∈ f.cols then mapCol currency_col currencyCanonCell f else f

/-- `.str.strip()` then the case-insensitive `other_currency` lambda:
missing or blank values pass through, otherwise look the lower-cased,
stripped value up and fall back to the stripped upper-cased text. -/
def otherCurrencyCanonCell (c : Cell) : Cell :=
  match strOp pystrip c with
  | Cell.str x =>
    if pystrip x ≠ "" then
      match tableGet other_currency_mapping_lower (pystrip (pyLower x)) with
      | some v => Cell.str v
      | none => Cell.str (pyUpper (pystrip x))
    else Cell.str x
  | y => y

def otherCurrencyStage (f : Frame) : Frame :=
  if other_currency_col ∈ f.cols then mapCol other_currency_col otherCurrencyCanonCell f else f

/-- `.str.strip().str.replace(r'\s+', ' ', regex=True)` then the
case-insensitive country lambda with title-case fallback. -/
def countryCanonCell (c : Cell) : Cell :=
  match strOp (fun s => collapseWs (pystrip s)) c with
  | Cell.str x =>
    if pystrip x ≠ "" then
      match tableGet country_mapping_lower (pystrip (pyLower x)) with
      | some v => Cell.str v
      | none => Cell.str (pyTitle (pystrip x))
    else Cell.str x
  | y => y

def countryStage (f : Frame) : Frame :=
  if country_col ∈ f.cols then mapCol country_col countryCanonCell f else f

/-! ### The pipeline -/

/-- Stages 2-9, i.e. everything `clean_dataset` does after duplicate
removal. -/
def stagesAfterDedup (f : Frame) : Frame :=
  countryStage (otherCurrencyStage (currencyStage (outlierStage
    (requiredStage (bonusStage (parseStage (lowerStage f)))))))

/-- The cleaning pipeline of `Cleanup.py` on an in-memory frame. -/
def clean_dataset (f : Frame) : Frame := stagesAfterDedup (dedupStage f)

/-- The frame as it stands right after required-field validation
(the input of the outlier filter). -/
def validatedStage (f : Frame) : Frame :=
  requiredStage (bonusStage (parseStage (lowerStage (dedupStage f))))

/-! ## `Analytics.py`: the aggregation engine

Only the data-selection core of each report is modelled: which numeric
values (raw or USD-converted) feed each grouping, and the wording of the
currency note each report emits.  Sorting by median, rounding, minimum
count thresholds and chart/file output do not bear on the claims. -/

namespace Analytics

/-- Same literals as in `Cleanup.py`; `Analytics.py` re-declares them. -/
def SALARY_COL : String := salary_col

def AGE_COL : String := age_col

def JOB_TITLE_COL : String := job_title_col

def COUNTRY_COL : String := country_col

def CURRENCY_COL : String := currency_col

def BONUS_COL : String := bonus_col

def EXCHANGE_RATES : List (String × ℚ) :=
  [("USD", 1.0), ("EUR", 1.164), ("GBP", 1.343), ("CAD", 0.720),
   ("AUD_NZD", 0.668), ("INR", 0.0111), ("PHP", 0.0175), ("BRL", 0.200),
   ("ILS", 0.274), ("PLN", 0.250), ("SGD", 0.776), ("MYR", 0.247),
   ("CNY", 0.143), ("CHF", 1.250), ("JPY", 0.006), ("HKD", 0.128),
   ("SEK", 0.095), ("ZAR", 0.056), ("NOK", 0.099), ("TZS", 0.00043)]

def COUNTRY_CURRENCY_MAP : List (String × ℚ) :=
  [("India", 0.0111), ("Philippines", 0.0175), ("Brazil", 0.200),
   ("Israel", 0.274), ("Poland", 0.250), ("Singapore", 0.776),
   ("Malaysia", 0.247), ("China", 0.143), ("Tanzania", 0.00043)]

/-- `_get_exchange_rate(row)`: the currency-code rate, falling back to the
country table when the code is the `OTHER` sentinel; unknown keys (and
non-string cells, for which `dict.get` misses) default to `1.0`. -/
def getExchangeRate (cols : List String) (r : Row) : ℚ :=
  match getC cols r CURRENCY_COL with
  | Cell.str c =>
    if c = "OTHER" then
      match getC cols r COUNTRY_COL with
      | Cell.str k => (tableGet COUNTRY_CURRENCY_MAP k).getD 1
      | _ => 1
    else (tableGet EXCHANGE_RATES c).getD 1
  | _ => 1

/-- The numeric salary of a row, as used by the raw (unconverted) reports. -/
def rawSalary (cols : List String) (r : Row) : Option ℚ :=
  match getC cols r SALARY_COL with
  | Cell.num s => some s
  | _ => none

/-- The `salary_usd` column: `row[SALARY_COL] * _get_exchange_rate(row)`. -/
def usdSalary (cols : List String) (r : Row) : Option ℚ :=
  match getC cols r SALARY_COL with
  | Cell.num s => some (s * getExchangeRate cols r)
  | _ => none

/-- `df.groupby(keyCol)[...]`: for each distinct text key, the numeric
observations the aggregation runs over (NaN keys and NaN values are
skipped, as pandas does). -/
def groupedVals (f : Frame) (keyCol : String) (val : List String → Row → Option ℚ) :
    List (String × List ℚ) :=
  let keys := (f.rows.filterMap (fun r =>
    match getC f.cols r keyCol with
    | Cell.str s => some s
    | _ => none)).dedup
  keys.map (fun k =>
    (k, f.rows.filterMap (fun r =>
      if getC f.cols r keyCol = Cell.str k then val f.cols r else none)))

/-- `salary_benchmarking`: groups the raw `SALARY_COL` by job title with
no currency conversion, whatever dataset is loaded. -/
def benchmarkingGroups (f : Frame) : List (String × List ℚ) :=
  groupedVals f JOB_TITLE_COL rawSalary

def benchmarkingNote (cur : String) : String :=
  "Note: All salary amounts shown are in " ++ cur

def usdSalaryNote : String :=
  "Note: All salary amounts have been converted to USD for fair comparison"

def usdBonusNote : String :=
  "Note: All bonus amounts have been converted to USD for fair comparison"

/-- `age_salary_analysis`: converts to USD on the `ALL` dataset when the
currency column is present, otherwise groups raw values. -/
def ageGroups (f : Frame) (cur : String) : List (String × List ℚ) :=
  if cur = "ALL" ∧ CURRENCY_COL ∈ f.cols then groupedVals f AGE_COL usdSalary
  else groupedVals f AGE_COL rawSalary

def ageNote (f : Frame) (cur : String) : String :=
  if cur = "ALL" ∧ CURRENCY_COL ∈ f.cols then usdSalaryNote
  else "Note: All salary amounts shown are in " ++ cur

/-- `geographic_analysis`: same conversion rule, grouped by country. -/
def geoGroups (f : Frame) (cur : String) : List (String × List ℚ) :=
  if cur = "ALL" ∧ CURRENCY_COL ∈ f.cols then groupedVals f COUNTRY_COL usdSalary
  else groupedVals f COUNTRY_COL rawSalary

def geoNote (f : Frame) (cur : String) : String :=
  if cur = "ALL" ∧ CURRENCY_COL ∈ f.cols then usdSalaryNote
  else "Note: All salary amounts shown are in " ++ cur

/-- `bonus_analysis` value vector: `pd.to_numeric(col, errors='coerce')`
then `fillna(0)`, multiplied row-wise by the exchange rate on the `ALL`
dataset when the currency column is present. -/
def bonusNumeric (cols : List String) (r : Row) : ℚ :=
  match getC cols r BONUS_COL with
  | Cell.num q => q
  | Cell.str s => (parseNumQ s).getD 0
  | Cell.na => 0

def bonusValues (f : Frame) (cur : String) : List ℚ :=
  if cur = "ALL" ∧ CURRENCY_COL ∈ f.cols then
    f.rows.map (fun r => bonusNumeric f.cols r * getExchangeRate f.cols r)
  else
    f.rows.map (fun r => bonusNumeric f.cols r)

def bonusNote (f : Frame) (cur : String) : String :=
  if cur = "ALL" ∧ CURRENCY_COL ∈ f.cols then usdBonusNote
  else "Note: All bonus amounts shown are in " ++ cur

end Analytics

/-! ## Specification-side definitions (following the wording of the spec) -/

/-- A row passes the Record Validator: every required field whose bound
column exists satisfies its check (spec 4.2). -/
def rowValid (cols : List String) (r : Row) : Bool :=
  required_fields.all (fun fld => !(decide (fld ∈ cols)) || requiredFieldPred cols fld r)

/-- Specification reading of deduplication: keep the first occurrence of
each row and erase every later exact copy. -/
def specKeepFirstOccurrences : List Row → List Row
  | [] => []
  | r :: t => r :: specKeepFirstOccurrences (t.filter (fun x => x ≠ r))
termination_by l => l.length
decreasing_by
  simp only [List.length_cons]
  exact Nat.lt_succ_of_le (List.length_filter_le _ _)

/-- Well-formed frame: every row has one cell per column. -/
def Frame.WF (f : Frame) : Prop :=
  ∀ r ∈ f.rows, r.length = f.cols.length

/-- A frame as `read_csv` delivers it: object columns only, every cell
missing or text. -/
def Frame.Textual (f : Frame) : Prop :=
  ∀ r ∈ f.rows, ∀ c ∈ r, c.isTextual = true

/-! ## Concrete frames used by witnesses and counterexamples -/

/-- Three valid records with salaries 1, 3, 5: sample variance 4, sample
standard deviation 2. -/
def wC1 : Frame :=
  ⟨[age_col, job_title_col, salary_col, currency_col, country_col],
   [[Cell.str "30", Cell.str "Dev", Cell.num 1, Cell.str "USD", Cell.str "US"],
    [Cell.str "31", Cell.str "Dev", Cell.num 3, Cell.str "USD", Cell.str "US"],
    [Cell.str "32", Cell.str "Dev", Cell.num 5, Cell.str "USD", Cell.str "US"]]⟩

/-- Two records identical except for the country spelling (`US` / `USA`):
distinct raw rows that country canonicalization makes equal. -/
def cexC2 : Frame :=
  ⟨[age_col, job_title_col, salary_col, currency_col, country_col],
   [[Cell.str "25-34", Cell.str "Engineer", Cell.str "100", Cell.str "USD", Cell.str "US"],
    [Cell.str "25-34", Cell.str "Engineer", Cell.str "100", Cell.str "USD", Cell.str "USA"]]⟩

/-- Two valid records, one with the non-numeric bonus text `n/a`, one with
a missing bonus. -/
def cexC3 : Frame :=
  ⟨[age_col, job_title_col, salary_col, currency_col, country_col, bonus_col],
   [[Cell.str "30", Cell.str "Dev", Cell.str "100", Cell.str "USD", Cell.str "US",
     Cell.str "n/a"],
    [Cell.str "31", Cell.str "Dev", Cell.str "104", Cell.str "USD", Cell.str "US", Cell.na]]⟩

/-- One valid record, one with salary 0, one with a blank currency. -/
def wC4 : Frame :=
  ⟨[age_col, job_title_col, salary_col, currency_col, country_col],
   [[Cell.str "30", Cell.str "Dev", Cell.num 100, Cell.str "USD", Cell.str "US"],
    [Cell.str "31", Cell.str "Dev", Cell.num 0, Cell.str "USD", Cell.str "US"],
    [Cell.str "32", Cell.str "Dev", Cell.num 50, Cell.str " ", Cell.str "US"]]⟩

/-- A cleaned `ALL`-partition record in euros, as `salary_benchmarking`
would load it. -/
def cexC5 : Frame :=
  ⟨[job_title_col, salary_col, currency_col, country_col],
   [[Cell.str "Eng", Cell.num 100, Cell.str "EUR", Cell.str "France"]]⟩

/-- An `OTHER`-currency record resolved through the country table. -/
def wC5 : Frame :=
  ⟨[job_title_col, salary_col, currency_col, country_col],
   [[Cell.str "Eng", Cell.num 100, Cell.str "OTHER", Cell.str "Brazil"]]⟩

/-- A frame carrying only the job-title column. -/
def wC9 : Frame := ⟨[job_title_col], [[Cell.str "Eng"]]⟩

/-- Two records of which exactly one survives validation (the other has a
blank country). -/
def wC10 : Frame :=
  ⟨[age_col, job_title_col, salary_col, currency_col, country_col],
   [[Cell.str "30", Cell.str "Dev", Cell.str "250", Cell.str "USD", Cell.str "US"],
    [Cell.str "31", Cell.str "Dev", Cell.str "260", Cell.str "USD", Cell.str " "]]⟩

/-! ## Column-lookup and single-column-update lemmas -/

theorem colIdx_isSome_iff (cols : List String) (c : String) :
    (colIdx cols c).isSome = true ↔ c ∈ cols := by
  induction cols with
  | nil => simp [colIdx]
  | cons a t ih =>
    by_cases h : a = c
    · subst h; simp [colIdx]
    · simp only [colIdx, if_neg h, List.mem_cons]
      cases ht : colIdx t c <;> simp_all [Option.isSome]
      exact fun hc => h hc.symm

theorem colIdx_getD (cols : List String) (c : String) (i : Nat)
    (h : colIdx cols c = some i) : cols.getD i "" = c := by
  induction cols generalizing i with
  | nil => simp [colIdx] at h
  | cons a t ih =>
    by_cases ha : a = c
    · subst ha
      simp [colIdx] at h
      subst h; rfl
    · simp only [colIdx, if_neg ha] at h
      cases ht : colIdx t c with
      | none => rw [ht] at h; simp at h
      | some j =>
        rw [ht] at h
        simp at h
        subst h
        simpa using ih j ht

theorem colIdx_inj {cols : List String} {c d : String} {i : Nat}
    (hc : colIdx cols c = some i) (hd : colIdx cols d = some i) : c = d := by
  have h1 := colIdx_getD cols c i hc
  have h2 := colIdx_getD cols d i hd
  rw [← h1, ← h2]

theorem colIdx_lt_length {cols : List String} {c : String} {i : Nat}
    (h : colIdx cols c = some i) : i < cols.length := by
  induction cols generalizing i with
  | nil => simp [colIdx] at h
  | cons a t ih =>
    by_cases ha : a = c
    · subst ha
      simp [colIdx] at h
      simp [List.length_cons]
      omega
    · simp only [colIdx, if_neg ha] at h
      cases ht : colIdx t c with
      | none => rw [ht] at h; simp at h
      | some j =>
        rw [ht] at h
        simp at h
        have := ih ht
        simp [List.length_cons, ← h]
        omega

theorem length_rowMapAt (cols : List String) (c : String) (g : Cell → Cell) (r : Row) :
    (rowMapAt cols c g r).length = r.length := by
  unfold rowMapAt
  cases colIdx cols c <;> simp

/-- Updating column `c` does not change what any other column reads. -/
theorem getC_rowMapAt_ne {cols : List String} {c d : String} (g : Cell → Cell) (r : Row)
    (hcd : d ≠ c) : getC cols (rowMapAt cols c g r) d = getC cols r d := by
  unfold rowMapAt getC
  cases hc : colIdx cols c with
  | none => rfl
  | some i =>
    cases hd : colIdx cols d with
    | none => rfl
    | some j =>
      have hij : i ≠ j := fun h => hcd (colIdx_inj hd (h ▸ hc))
      simp [List.getD_eq_getElem?_getD, List.getElem?_set_ne hij]

/-- Updating column `c` rewrites exactly that column (on rows wide enough
to carry it). -/
theorem getC_rowMapAt_self {cols : List String} {c : String} (g : Cell → Cell) (r : Row)
    (hmem : c ∈ cols) (hlen : r.length = cols.length) :
    getC cols (rowMapAt cols c g r) c = g (getC cols r c) := by
  have hsome : (colIdx cols c).isSome = true := (colIdx_isSome_iff cols c).mpr hmem
  cases hc : colIdx cols c with
  | none => rw [hc] at hsome; simp [Option.isSome] at hsome
  | some i =>
    have hi : i < r.length := hlen ▸ colIdx_lt_length hc
    unfold rowMapAt getC
    rw [hc]
    simp [List.getD_eq_getElem?_getD, List.getElem?_set_self hi]

/-! ## Deduplication lemmas -/

theorem specKeep_nil : specKeepFirstOccurrences [] = [] := by
  rw [specKeepFirstOccurrences]

theorem specKeep_cons (r : Row) (t : List Row) :
    specKeepFirstOccurrences (r :: t) =
      r :: specKeepFirstOccurrences (t.filter (fun x => x ≠ r)) := by
  rw [specKeepFirstOccurrences]

theorem count_dedupAux (seen l : List Row) (r : Row) :
    (dedupAux seen l).count r = if r ∈ seen then 0 else min (l.count r) 1 := by
  induction l generalizing seen with
  | nil => simp [dedupAux]
  | cons a t ih =>
    by_cases ha : a ∈ seen
    · rw [dedupAux, if_pos ha, ih seen]
      by_cases hr : r ∈ seen
      · simp [hr]
      · have har : r ≠ a := fun h => hr (h ▸ ha)
        simp [hr, List.count_cons, har]
    · rw [dedupAux, if_neg ha]
      by_cases hra : r = a
      · subst hra
        rw [List.count_cons_self, ih (r :: seen)]
        simp [ha, List.count_cons_self]
      · rw [List.count_cons_of_ne hra, ih (a :: seen)]
        by_cases hr : r ∈ seen
        · simp [hr, List.mem_cons, hra]
        · simp [List.mem_cons, hra, hr]

theorem count_dedupRows (l : List Row) (r : Row) :
    (dedupRows l).count r = min (l.count r) 1 := by
  simpa using count_dedupAux [] l r

theorem dedupAux_eq_spec (l seen : List Row) :
    dedupAux seen l = specKeepFirstOccurrences (l.filter (fun x => !(decide (x ∈ seen)))) := by
  induction l generalizing seen with
  | nil => simp [dedupAux, specKeep_nil]
  | cons a t ih =>
    by_cases ha : a ∈ seen
    · rw [dedupAux, if_pos ha, List.filter_cons]
      have : (!(decide (a ∈ seen))) = false := by simp [ha]
      rw [this, if_neg (by simp)]
      exact ih seen
    · rw [dedupAux, if_neg ha, List.filter_cons]
      have : (!(decide (a ∈ seen))) = true := by simp [ha]
      rw [this, if_pos rfl, specKeep_cons, ih (a :: seen)]
      congr 1
      rw [List.filter_filter]
      congr 1
      apply List.filter_congr
      intro x _
      by_cases hxa : x = a
      · simp [hxa, ha]
      · simp [List.mem_cons, hxa]

/-- `drop_duplicates` keeps exactly the first occurrence of every row. -/
theorem dedupRows_eq_spec (l : List Row) :
    dedupRows l = specKeepFirstOccurrences l := by
  have h := dedupAux_eq_spec l []
  simpa [dedupRows] using h

/-! ## Required-field stage: one filter, order-irrelevant -/

theorem checkRequired_cols (fld : String) (f : Frame) :
    (checkRequired fld f).cols = f.cols := by
  unfold checkRequired filterRows
  by_cases h : fld ∈ f.cols <;> simp [h]

theorem checkRequired_rows (fld : String) (f : Frame) :
    (checkRequired fld f).rows =
      f.rows.filter (fun r => !(decide (fld ∈ f.cols)) || requiredFieldPred f.cols fld r) := by
  unfold checkRequired filterRows
  by_cases h : fld ∈ f.cols
  · simp only [if_pos h]
    apply List.filter_congr
    intro r _
    simp [h]
  · simp only [if_neg h]
    have : ∀ r : Row, (!(decide (fld ∈ f.cols)) || requiredFieldPred f.cols fld r) = true := by
      intro r; simp [h]
    rw [List.filter_congr (fun r _ => this r)]
    simp

theorem requiredFold_cols (fs : List String) (f : Frame) :
    (requiredFold fs f).cols = f.cols := by
  induction fs generalizing f with
  | nil => rfl
  | cons fld t ih =>
    show (requiredFold t (checkRequired fld f)).cols = f.cols
    rw [ih, checkRequired_cols]

theorem requiredFold_rows (fs : List String) (f : Frame) :
    (requiredFold fs f).rows =
      f.rows.filter (fun r =>
        fs.all (fun fld => !(decide (fld ∈ f.cols)) || requiredFieldPred f.cols fld r)) := by
  induction fs generalizing f with
  | nil => simp [requiredFold]
  | cons fld t ih =>
    show (requiredFold t (checkRequired fld f)).rows = _
    rw [ih, checkRequired_cols, checkRequired_rows, List.filter_filter]
    apply List.filter_congr
    intro r _
    simp [List.all_cons, Bool.and_comm]

/-- The validator keeps exactly the rows passing every per-field check
(for fields whose column exists): dropped iff some existing check fails. -/
theorem requiredStage_rows (f : Frame) :
    (requiredStage f).rows = f.rows.filter (fun r => rowValid f.cols r) := by
  exact requiredFold_rows required_fields f

/-- Permuting the order of the required-field checks does not change the
result. -/
theorem requiredFold_perm (fs fs' : List String) (f : Frame) (h : fs.Perm fs') :
    requiredFold fs f = requiredFold fs' f := by
  have hall : ∀ (cols : List String) (r : Row),
      fs.all (fun fld => !(decide (fld ∈ cols)) || requiredFieldPred cols fld r) =
      fs'.all (fun fld => !(decide (fld ∈ cols)) || requiredFieldPred cols fld r) := by
    intro cols r
    rcases hb : fs'.all (fun fld => !(decide (fld ∈ cols)) || requiredFieldPred cols fld r) with _ | _
    · rw [Bool.eq_false_iff]
      intro hc
      rw [List.all_eq_true] at hc
      rw [Bool.eq_false_iff] at hb
      exact hb (List.all_eq_true.mpr (fun x hx => hc x (h.mem_iff.mpr hx)))
    · rw [List.all_eq_true] at hb ⊢
      exact fun x hx => hb x (h.mem_iff.mp hx)
  have hc1 := requiredFold_cols fs f
  have hc2 := requiredFold_cols fs' f
  have hr1 := requiredFold_rows fs f
  have hr2 := requiredFold_rows fs' f
  cases hf1 : requiredFold fs f with
  | mk c1 r1 =>
    cases hf2 : requiredFold fs' f with
    | mk c2 r2 =>
      rw [hf1] at hc1 hr1
      rw [hf2] at hc2 hr2
      simp only at hc1 hc2 hr1 hr2
      subst hc1; subst hc2
      congr 1
      rw [hr1, hr2]
      exact List.filter_congr (fun r _ => hall f.cols r)

/-! ## String toolkit lemmas -/

theorem asciiCase_facts : ∀ p ∈ asciiCase, isWs p.fst = false ∧ isWs p.snd = false := by
  decide

theorem isWs_lowerChar (c : Char) : isWs (lowerChar c) = isWs c := by
  unfold lowerChar
  cases h : asciiCase.find? (fun p => p.fst = c) with
  | none => rfl
  | some p =>
    have hm := List.mem_of_find?_eq_some h
    have hp := List.find?_some h
    have hc : p.fst = c := by simpa using hp
    have := asciiCase_facts p hm
    rw [← hc, this.1, this.2]

theorem isWs_upperChar (c : Char) : isWs (upperChar c) = isWs c := by
  unfold upperChar
  cases h : asciiCase.find? (fun p => p.snd = c) with
  | none => rfl
  | some p =>
    have hm := List.mem_of_find?_eq_some h
    have hp := List.find?_some h
    have hc : p.snd = c := by simpa using hp
    have := asciiCase_facts p hm
    rw [← hc, this.1, this.2]

theorem head?_dropWhile_false {α : Type} (p : α → Bool) (l : List α) :
    ∀ x, (l.dropWhile p).head? = some x → p x = false := by
  intro x hx
  have h := List.head?_dropWhile_not p l
  rw [hx] at h
  exact h

theorem dropWhile_eq_self_of_head {α : Type} {p : α → Bool} {l : List α}
    (h : ∀ x, l.head? = some x → p x = false) : l.dropWhile p = l := by
  cases l with
  | nil => rfl
  | cons a t =>
    have := h a rfl
    simp [List.dropWhile_cons, this]

theorem stripL_eq_nil_iff (l : List Char) :
    stripL l = [] ↔ ∀ c ∈ l, isWs c = true := by
  unfold stripL
  rw [List.reverse_eq_nil_iff, List.dropWhile_eq_nil_iff]
  constructor
  · intro h c hc
    rcases List.mem_append.mp ((List.takeWhile_append_dropWhile isWs l) ▸ hc) with h1 | h1
    · exact List.mem_takeWhile_imp h1
    · exact h c (List.mem_reverse.mpr h1)
  · intro h c hc
    exact h c ((List.dropWhile_suffix isWs).subset (List.mem_reverse.mp hc))

theorem getLast?_dropWhile_false {α : Type} (p : α → Bool) (l : List α) :
    ∀ x, (l.dropWhile p).getLast? = some x → l.getLast? = some x := by
  intro x hx
  obtain ⟨t, ht⟩ := List.dropWhile_suffix (l := l) p
  rw [← ht, List.getLast?_append, hx]
  rfl

theorem stripL_idem (l : List Char) : stripL (stripL l) = stripL l := by
  have hA : ∀ x, ((l.dropWhile isWs).head? = some x) → isWs x = false :=
    head?_dropWhile_false isWs l
  set A := l.dropWhile isWs with hAdef
  set B := A.reverse.dropWhile isWs with hBdef
  have hB : ∀ x, B.head? = some x → isWs x = false := head?_dropWhile_false isWs A.reverse
  have hBlast : ∀ x, B.getLast? = some x → isWs x = false := by
    intro x hx
    have h2 := getLast?_dropWhile_false isWs A.reverse x hx
    rw [List.getLast?_reverse] at h2
    exact hA x h2
  show ((((B.reverse).dropWhile isWs).reverse).dropWhile isWs).reverse = B.reverse
  have s1 : (B.reverse).dropWhile isWs = B.reverse := by
    apply dropWhile_eq_self_of_head
    intro x hx
    rw [List.head?_reverse] at hx
    exact hBlast x hx
  rw [s1, List.reverse_reverse]
  have s2 : B.dropWhile isWs = B := dropWhile_eq_self_of_head hB
  rw [s2]

theorem stripL_map (g : Char → Char) (hg : ∀ c, isWs (g c) = isWs c) (l : List Char) :
    stripL (l.map g) = (stripL l).map g := by
  have hfun : (fun c => isWs (g c)) = isWs := funext hg
  unfold stripL
  rw [List.dropWhile_map]
  have e1 : (isWs ∘ g) = isWs := funext hg
  rw [e1, ← List.map_reverse, List.dropWhile_map, e1, ← List.map_reverse]

theorem collapseAux_allWs (b : Bool) (l : List Char) :
    (∀ x ∈ collapseAux b l, isWs x = true) ↔ (∀ x ∈ l, isWs x = true) := by
  induction l generalizing b with
  | nil => simp [collapseAux]
  | cons c cs ih =>
    by_cases hc : isWs c = true
    · by_cases hb : b = true
      · subst hb
        rw [collapseAux, if_pos hc, if_pos rfl, ih true]
        constructor
        · intro h x hx
          rcases List.mem_cons.mp hx with rfl | hx
          · exact hc
          · exact h x hx
        · intro h x hx
          exact h x (List.mem_cons_of_mem c hx)
      · have hb' : b = false := by revert hb; cases b <;> simp
        subst hb'
        rw [collapseAux, if_pos hc, if_neg (by simp)]
        simp only [List.mem_cons, forall_eq_or_imp]
        rw [ih true]
        constructor
        · rintro ⟨_, h⟩
          exact ⟨hc, h⟩
        · rintro ⟨_, h⟩
          exact ⟨by decide, h⟩
    · rw [collapseAux, if_neg hc]
      simp only [List.mem_cons, forall_eq_or_imp]
      rw [ih false]

theorem titleAux_allWs (b : Bool) (l : List Char) :
    (∀ x ∈ titleAux b l, isWs x = true) ↔ (∀ x ∈ l, isWs x = true) := by
  induction l generalizing b with
  | nil => simp [titleAux]
  | cons c cs ih =>
    rw [titleAux]
    simp only [List.mem_cons, forall_eq_or_imp]
    rw [ih (isAsciiAlpha c)]
    have hhead :
        isWs (if isAsciiAlpha c = true then
          (if b = true then lowerChar c else upperChar c) else c) = isWs c := by
      by_cases h1 : isAsciiAlpha c = true
      · by_cases h2 : b = true
        · simp [h1, h2, isWs_lowerChar]
        · simp [h1, h2, isWs_upperChar]
      · simp [h1]
    rw [hhead]

theorem tableGet_mem {α : Type} {t : List (String × α)} {k : String} {v : α}
    (h : tableGet t k = some v) : (k, v) ∈ t := by
  induction t with
  | nil => simp [tableGet] at h
  | cons p rest ih =>
    by_cases hp : p.fst = k
    · rw [tableGet, if_pos hp] at h
      have hv : p.snd = v := by injection h
      have hpe : p = (k, v) := by
        cases p
        simp_all
      rw [← hpe]
      exact List.mem_cons_self _ _
    · rw [tableGet, if_neg hp] at h
      exact List.mem_cons_of_mem p (ih h)

theorem pystrip_eq_empty_iff (s : String) :
    pystrip s = "" ↔ ∀ c ∈ s.data, isWs c = true := by
  unfold pystrip
  rw [String.ext_iff]
  show stripL s.data = [] ↔ _
  exact stripL_eq_nil_iff s.data

theorem data_pyUpper (s : String) : (pyUpper s).data = s.data.map upperChar := rfl

theorem data_pyLower (s : String) : (pyLower s).data = s.data.map lowerChar := rfl

theorem data_pystrip (s : String) : (pystrip s).data = stripL s.data := rfl

/-- `strip` is idempotent at string level. -/
theorem pystrip_idem (s : String) : pystrip (pystrip s) = pystrip s := by
  unfold pystrip
  rw [String.ext_iff]
  show stripL (stripL s.data) = stripL s.data
  exact stripL_idem s.data

/-- Upper-casing an already stripped string leaves it stripped. -/
theorem pystrip_pyUpper_pystrip (s : String) :
    pystrip (pyUpper (pystrip s)) = pyUpper (pystrip s) := by
  unfold pystrip pyUpper
  rw [String.ext_iff]
  show stripL ((stripL s.data).map upperChar) = (stripL s.data).map upperChar
  rw [stripL_map upperChar isWs_upperChar, stripL_idem]

/-! ## Canonicalization-cell lemmas -/

theorem mem_dropWhile_of_false {α : Type} {p : α → Bool} {c : α} {l : List α}
    (hc : p c = false) (hl : c ∈ l) : c ∈ l.dropWhile p := by
  induction l with
  | nil => simp at hl
  | cons a t ih =>
    by_cases ha : p a = true
    · rw [List.dropWhile_cons_of_pos ha]
      rcases List.mem_cons.mp hl with rfl | hl
      · rw [hc] at ha; simp at ha
      · exact ih hl
    · rw [List.dropWhile_cons_of_neg ha]
      exact hl

theorem mem_stripL_of_false {c : Char} {l : List Char}
    (hc : isWs c = false) (hl : c ∈ l) : c ∈ stripL l := by
  unfold stripL
  rw [List.mem_reverse]
  apply mem_dropWhile_of_false hc
  rw [List.mem_reverse]
  exact mem_dropWhile_of_false hc hl

theorem stripL_allWs_iff (l : List Char) :
    (∀ x ∈ stripL l, isWs x = true) ↔ (∀ x ∈ l, isWs x = true) := by
  constructor
  · intro h x hx
    by_cases hws : isWs x = true
    · exact hws
    · exact h x (mem_stripL_of_false (by simpa using hws) hx)
  · intro h x hx
    apply h
    have hsub : stripL l ⊆ l := by
      unfold stripL
      intro y hy
      rw [List.mem_reverse] at hy
      have h1 := (List.dropWhile_suffix isWs).subset hy
      rw [List.mem_reverse] at h1
      exact (List.dropWhile_suffix isWs).subset h1
    exact hsub hx

theorem allWs_map_lowerChar_iff (l : List Char) :
    (∀ x ∈ l.map lowerChar, isWs x = true) ↔ (∀ x ∈ l, isWs x = true) := by
  simp only [List.mem_map, forall_exists_index, and_imp]
  constructor
  · intro h x hx
    rw [← isWs_lowerChar]
    exact h (lowerChar x) x hx rfl
  · intro h y x hx he
    rw [← he, isWs_lowerChar]
    exact h x hx

theorem pystrip_pyLower_empty {x : String} (h : pystrip x = "") :
    pystrip (pyLower x) = "" := by
  rw [pystrip_eq_empty_iff] at h ⊢
  rw [data_pyLower]
  exact (allWs_map_lowerChar_iff x.data).mpr h

theorem pyUpper_ne_empty {s : String} (h : s ≠ "") : pyUpper s ≠ "" := by
  intro hc
  apply h
  rw [String.ext_iff] at hc ⊢
  rw [data_pyUpper] at hc
  simpa using hc

theorem pystrip_ne_empty_iff (s : String) :
    pystrip s ≠ "" ↔ ∃ c ∈ s.data, isWs c = false := by
  rw [Ne, pystrip_eq_empty_iff]
  push_neg
  constructor
  · rintro ⟨c, hc, hne⟩
    exact ⟨c, hc, by simpa using hne⟩
  · rintro ⟨c, hc, hne⟩
    exact ⟨c, hc, by simp [hne]⟩

/-- Blank keys miss every alias table of this pipeline. -/
theorem tableGet_currency_empty : tableGet currency_mapping "" = none := by decide

theorem tableGet_other_empty : tableGet other_currency_mapping_lower "" = none := by decide

theorem tableGet_country_empty : tableGet country_mapping_lower "" = none := by decide

theorem currency_mapping_vals :
    ∀ p ∈ currency_mapping, pystrip p.snd ≠ "" := by decide

theorem country_mapping_vals :
    ∀ p ∈ country_mapping_lower, pystrip p.snd ≠ "" := by decide

/-- The currency canonicalizer sends non-blank text to non-blank text. -/
theorem currencyCanon_keeps_nonblank {s : String} (h : pystrip s ≠ "") :
    ∃ v, currencyCanonCell (Cell.str s) = Cell.str v ∧ pystrip v ≠ "" := by
  show ∃ v, Cell.str ((tableGet currency_mapping (pyUpper (pystrip s))).getD
      (pyUpper (pystrip s))) = Cell.str v ∧ pystrip v ≠ ""
  cases ht : tableGet currency_mapping (pyUpper (pystrip s)) with
  | some v =>
    refine ⟨v, by simp [ht], ?_⟩
    exact currency_mapping_vals _ (tableGet_mem ht)
  | none =>
    refine ⟨pyUpper (pystrip s), by simp [ht], ?_⟩
    rw [pystrip_pyUpper_pystrip]
    exact pyUpper_ne_empty h

theorem collapse_pystrip_ne_empty {s : String} (h : pystrip s ≠ "") :
    pystrip (collapseWs (pystrip s)) ≠ "" := by
  rw [Ne, pystrip_eq_empty_iff]
  intro hall
  apply h
  rw [pystrip_eq_empty_iff]
  have h1 : ∀ x ∈ (collapseWs (pystrip s)).data, isWs x = true := hall
  have h2 : (collapseWs (pystrip s)).data = collapseAux false (stripL s.data) := rfl
  rw [h2] at h1
  rw [← stripL_allWs_iff]
  exact (collapseAux_allWs false (stripL s.data)).mp h1

/-- The country canonicalizer sends non-blank text to non-blank text. -/
theorem countryCanon_keeps_nonblank {s : String} (h : pystrip s ≠ "") :
    ∃ v, countryCanonCell (Cell.str s) = Cell.str v ∧ pystrip v ≠ "" := by
  have hg := collapse_pystrip_ne_empty h
  show ∃ v, (if pystrip (collapseWs (pystrip s)) ≠ "" then _ else _) = Cell.str v ∧ _
  rw [if_pos hg]
  cases ht : tableGet country_mapping_lower
      (pystrip (pyLower (collapseWs (pystrip s)))) with
  | some v =>
    exact ⟨v, rfl, country_mapping_vals _ (tableGet_mem ht)⟩
  | none =>
    refine ⟨pyTitle (pystrip (collapseWs (pystrip s))), rfl, ?_⟩
    rw [Ne, pystrip_eq_empty_iff]
    intro hall
    apply hg
    rw [pystrip_eq_empty_iff]
    have h2 : (pyTitle (pystrip (collapseWs (pystrip s)))).data =
        titleAux false (stripL (collapseWs (pystrip s)).data) := rfl
    rw [h2] at hall
    rw [← stripL_allWs_iff]
    exact (titleAux_allWs false _).mp hall

/-! ## Stage structure lemmas -/

theorem mapCol_cols (c : String) (g : Cell → Cell) (f : Frame) :
    (mapCol c g f).cols = f.cols := rfl

theorem parseStage_cols (f : Frame) : (parseStage f).cols = f.cols := by
  unfold parseStage
  split <;> rfl

theorem bonusStage_cols (f : Frame) : (bonusStage f).cols = f.cols := by
  unfold bonusStage
  split <;> rfl

theorem requiredStage_cols (f : Frame) : (requiredStage f).cols = f.cols :=
  requiredFold_cols required_fields f

theorem outlierStage_cols (f : Frame) : (outlierStage f).cols = f.cols := by
  unfold outlierStage
  split
  · split <;> rfl
  · rfl

theorem currencyStage_cols (f : Frame) : (currencyStage f).cols = f.cols := by
  unfold currencyStage
  split <;> rfl

theorem otherCurrencyStage_cols (f : Frame) : (otherCurrencyStage f).cols = f.cols := by
  unfold otherCurrencyStage
  split <;> rfl

theorem countryStage_cols (f : Frame) : (countryStage f).cols = f.cols := by
  unfold countryStage
  split <;> rfl

theorem clean_dataset_cols (f : Frame) :
    (clean_dataset f).cols = f.cols.map pyLower := by
  show (countryStage (otherCurrencyStage (currencyStage (outlierStage (requiredStage
    (bonusStage (parseStage (lowerStage (dedupStage f))))))))).cols = _
  rw [countryStage_cols, otherCurrencyStage_cols, currencyStage_cols, outlierStage_cols,
    requiredStage_cols, bonusStage_cols, parseStage_cols]
  rfl

theorem mem_dedupAux_sub {seen l : List Row} {r : Row}
    (h : r ∈ dedupAux seen l) : r ∈ l := by
  induction l generalizing seen with
  | nil => simp [dedupAux] at h
  | cons a t ih =>
    rw [dedupAux] at h
    by_cases ha : a ∈ seen
    · rw [if_pos ha] at h
      exact List.mem_cons_of_mem a (ih h)
    · rw [if_neg ha] at h
      rcases List.mem_cons.mp h with rfl | h
      · exact List.mem_cons_self _ _
      · exact List.mem_cons_of_mem a (ih h)

theorem mem_mapCol {c : String} {g : Cell → Cell} {f : Frame} {r : Row}
    (h : r ∈ (mapCol c g f).rows) :
    ∃ r0 ∈ f.rows, r = rowMapAt f.cols c g r0 := by
  rcases List.mem_map.mp h with ⟨r0, h0, he⟩
  exact ⟨r0, h0, he.symm⟩

/-! ### Well-formedness is preserved by every stage -/

theorem WF_dedupStage {f : Frame} (h : f.WF) : (dedupStage f).WF := by
  intro r hr
  exact h r (mem_dedupAux_sub hr)

theorem WF_lowerStage {f : Frame} (h : f.WF) : (lowerStage f).WF := by
  intro r hr
  show r.length = (f.cols.map pyLower).length
  rw [List.length_map]
  exact h r hr

theorem WF_mapCol {f : Frame} (c : String) (g : Cell → Cell) (h : f.WF) :
    (mapCol c g f).WF := by
  intro r hr
  rcases mem_mapCol hr with ⟨r0, h0, he⟩
  rw [he, mapCol_cols, length_rowMapAt]
  exact h r0 h0

theorem WF_parseStage {f : Frame} (h : f.WF) : (parseStage f).WF := by
  unfold parseStage
  split
  · exact WF_mapCol _ _ h
  · exact h

theorem WF_bonusStage {f : Frame} (h : f.WF) : (bonusStage f).WF := by
  unfold bonusStage
  split
  · exact WF_mapCol _ _ h
  · exact h

theorem WF_requiredStage {f : Frame} (h : f.WF) : (requiredStage f).WF := by
  intro r hr
  rw [requiredStage_rows] at hr
  rw [requiredStage_cols]
  exact h r (List.mem_filter.mp hr).1

theorem WF_outlierStage {f : Frame} (h : f.WF) : (outlierStage f).WF := by
  intro r hr
  rw [outlierStage_cols]
  unfold outlierStage at hr
  split at hr
  · split at hr
    · exact h r (List.mem_filter.mp hr).1
    · simp at hr
  · exact h r hr

theorem WF_currencyStage {f : Frame} (h : f.WF) : (currencyStage f).WF := by
  unfold currencyStage
  split
  · exact WF_mapCol _ _ h
  · exact h

theorem WF_otherCurrencyStage {f : Frame} (h : f.WF) : (otherCurrencyStage f).WF := by
  unfold otherCurrencyStage
  split
  · exact WF_mapCol _ _ h
  · exact h

theorem WF_countryStage {f : Frame} (h : f.WF) : (countryStage f).WF := by
  unfold countryStage
  split
  · exact WF_mapCol _ _ h
  · exact h

/-! ## Invariant transport across stages -/

theorem list_all_congr {α : Type} {p q : α → Bool} {l : List α}
    (h : ∀ a ∈ l, p a = q a) : l.all p = l.all q := by
  induction l with
  | nil => rfl
  | cons a t ih =>
    rw [List.all_cons, List.all_cons, h a (List.mem_cons_self a t),
      ih (fun x hx => h x (List.mem_cons_of_mem a hx))]

theorem mem_requiredStage_sub {f : Frame} {r : Row}
    (h : r ∈ (requiredStage f).rows) : r ∈ f.rows := by
  rw [requiredStage_rows] at h
  exact (List.mem_filter.mp h).1

theorem mem_outlierStage_sub {f : Frame} {r : Row}
    (h : r ∈ (outlierStage f).rows) : r ∈ f.rows := by
  unfold outlierStage at h
  split at h
  · split at h
    · exact (List.mem_filter.mp h).1
    · simp at h
  · exact h

theorem textual_getC {f : Frame} (h : f.Textual) (d : String) :
    ∀ r ∈ f.rows, (getC f.cols r d).isTextual = true := by
  intro r hr
  unfold getC
  cases colIdx f.cols d with
  | none => rfl
  | some i =>
    show (r.getD i Cell.na).isTextual = true
    rw [List.getD_eq_getElem?_getD]
    cases hg : r[i]? with
    | none => rfl
    | some x =>
      have hx : x ∈ r := List.getElem?_mem hg
      exact h r hr x hx

theorem holdsAt_mapCol_ne {P : Cell → Prop} {f : Frame} {c d : String} (g : Cell → Cell)
    (hdc : d ≠ c) (h : ∀ r ∈ f.rows, P (getC f.cols r d)) :
    ∀ r ∈ (mapCol c g f).rows, P (getC (mapCol c g f).cols r d) := by
  intro r hr
  rcases mem_mapCol hr with ⟨r0, h0, rfl⟩
  rw [mapCol_cols, getC_rowMapAt_ne g r0 hdc]
  exact h r0 h0

theorem requiredFieldPred_congr {cols : List String} {fld : String} {r r' : Row}
    (h : getC cols r' fld = getC cols r fld) :
    requiredFieldPred cols fld r' = requiredFieldPred cols fld r := by
  unfold requiredFieldPred
  rw [h]

/-- Rewriting a column that is not a required field leaves the validator
verdict unchanged. -/
theorem rowValid_rowMapAt_not_required {cols : List String} {c : String} (g : Cell → Cell)
    (r : Row) (hc : c ∉ required_fields) :
    rowValid cols (rowMapAt cols c g r) = rowValid cols r := by
  unfold rowValid
  apply list_all_congr
  intro fld hfld
  have hfc : fld ≠ c := fun he => hc (he ▸ hfld)
  rw [requiredFieldPred_congr (getC_rowMapAt_ne g r hfc)]

/-- Rewriting a non-salary textual column through a blank-preserving
transform keeps a valid row valid. -/
theorem rowValid_rowMapAt_keep {cols : List String} {c : String} {g : Cell → Cell} {r : Row}
    (hwf : r.length = cols.length)
    (hcs : c ≠ salary_col)
    (htex : (getC cols r c).isTextual = true)
    (hkeep : ∀ s : String, pystrip s ≠ "" →
      ∃ v, g (Cell.str s) = Cell.str v ∧ pystrip v ≠ "")
    (hval : rowValid cols r = true) :
    rowValid cols (rowMapAt cols c g r) = true := by
  unfold rowValid at hval ⊢
  rw [List.all_eq_true] at hval ⊢
  intro fld hfld
  by_cases hfc : fld = c
  · subst hfc
    by_cases hmem : fld ∈ cols
    · have hv := hval fld hfld
      rw [Bool.or_eq_true] at hv ⊢
      have hpred : requiredFieldPred cols fld r = true := by
        rcases hv with h | h
        · rw [Bool.not_eq_eq_eq_not] at h
          simp [hmem] at h
        · exact h
      right
      have hself := getC_rowMapAt_self g r hmem hwf
      unfold requiredFieldPred at hpred ⊢
      rw [if_neg hcs] at hpred ⊢
      rw [hself]
      cases hcell : getC cols r fld with
      | na => rw [hcell] at hpred; simp at hpred
      | num q => rw [hcell] at htex; simp [Cell.isTextual] at htex
      | str s =>
        rw [hcell] at hpred
        have hs : pystrip s ≠ "" := by simpa using hpred
        obtain ⟨v, hgv, hv2⟩ := hkeep s hs
        rw [hgv]
        simpa using hv2
    · simp [hmem]
  · have hne := @getC_rowMapAt_ne cols c fld g r hfc
    rw [requiredFieldPred_congr hne]
    exact hval fld hfld

/-! ### Column-name disequalities used by the transport -/

theorem currency_ne_salary : currency_col ≠ salary_col := by decide

theorem country_ne_salary : country_col ≠ salary_col := by decide

theorem currency_ne_bonus : currency_col ≠ bonus_col := by decide

theorem country_ne_bonus : country_col ≠ bonus_col := by decide

theorem country_ne_currency : country_col ≠ currency_col := by decide

theorem country_ne_other : country_col ≠ other_currency_col := by decide

theorem other_not_required : other_currency_col ∉ required_fields := by decide

/-! ### Per-stage transport of a cell property at a fixed column -/

theorem holdsAt_parseStage {P : Cell → Prop} {f : Frame} {d : String} (hds : d ≠ salary_col)
    (h : ∀ r ∈ f.rows, P (getC f.cols r d)) :
    ∀ r ∈ (parseStage f).rows, P (getC (parseStage f).cols r d) := by
  unfold parseStage
  split
  · exact holdsAt_mapCol_ne _ hds h
  · exact h

theorem holdsAt_bonusStage {P : Cell → Prop} {f : Frame} {d : String} (hds : d ≠ bonus_col)
    (h : ∀ r ∈ f.rows, P (getC f.cols r d)) :
    ∀ r ∈ (bonusStage f).rows, P (getC (bonusStage f).cols r d) := by
  unfold bonusStage
  split
  · exact holdsAt_mapCol_ne _ hds h
  · exact h

theorem holdsAt_currencyStage {P : Cell → Prop} {f : Frame} {d : String}
    (hds : d ≠ currency_col)
    (h : ∀ r ∈ f.rows, P (getC f.cols r d)) :
    ∀ r ∈ (currencyStage f).rows, P (getC (currencyStage f).cols r d) := by
  unfold currencyStage
  split
  · exact holdsAt_mapCol_ne _ hds h
  · exact h

theorem holdsAt_otherCurrencyStage {P : Cell → Prop} {f : Frame} {d : String}
    (hds : d ≠ other_currency_col)
    (h : ∀ r ∈ f.rows, P (getC f.cols r d)) :
    ∀ r ∈ (otherCurrencyStage f).rows, P (getC (otherCurrencyStage f).cols r d) := by
  unfold otherCurrencyStage
  split
  · exact holdsAt_mapCol_ne _ hds h
  · exact h

theorem holdsAt_requiredStage {P : Cell → Prop} {f : Frame} {d : String}
    (h : ∀ r ∈ f.rows, P (getC f.cols r d)) :
    ∀ r ∈ (requiredStage f).rows, P (getC (requiredStage f).cols r d) := by
  intro r hr
  rw [requiredStage_cols]
  exact h r (mem_requiredStage_sub hr)

theorem holdsAt_outlierStage {P : Cell → Prop} {f : Frame} {d : String}
    (h : ∀ r ∈ f.rows, P (getC f.cols r d)) :
    ∀ r ∈ (outlierStage f).rows, P (getC (outlierStage f).cols r d) := by
  intro r hr
  rw [outlierStage_cols]
  exact h r (mem_outlierStage_sub hr)

/-! ### Validator verdict is stable under the canonicalization stages -/

theorem rowValid_all_currencyStage {f : Frame} (hwf : f.WF)
    (htex : ∀ r ∈ f.rows, (getC f.cols r currency_col).isTextual = true)
    (hval : ∀ r ∈ f.rows, rowValid f.cols r = true) :
    ∀ r ∈ (currencyStage f).rows, rowValid (currencyStage f).cols r = true := by
  unfold currencyStage
  split
  · intro r hr
    rcases mem_mapCol hr with ⟨r0, h0, rfl⟩
    rw [mapCol_cols]
    exact rowValid_rowMapAt_keep (hwf r0 h0) currency_ne_salary (htex r0 h0)
      (fun s hs => currencyCanon_keeps_nonblank hs) (hval r0 h0)
  · exact hval

theorem rowValid_all_countryStage {f : Frame} (hwf : f.WF)
    (htex : ∀ r ∈ f.rows, (getC f.cols r country_col).isTextual = true)
    (hval : ∀ r ∈ f.rows, rowValid f.cols r = true) :
    ∀ r ∈ (countryStage f).rows, rowValid (countryStage f).cols r = true := by
  unfold countryStage
  split
  · intro r hr
    rcases mem_mapCol hr with ⟨r0, h0, rfl⟩
    rw [mapCol_cols]
    exact rowValid_rowMapAt_keep (hwf r0 h0) country_ne_salary (htex r0 h0)
      (fun s hs => countryCanon_keeps_nonblank hs) (hval r0 h0)
  · exact hval

theorem rowValid_all_otherCurrencyStage {f : Frame}
    (hval : ∀ r ∈ f.rows, rowValid f.cols r = true) :
    ∀ r ∈ (otherCurrencyStage f).rows, rowValid (otherCurrencyStage f).cols r = true := by
  unfold otherCurrencyStage
  split
  · intro r hr
    rcases mem_mapCol hr with ⟨r0, h0, rfl⟩
    rw [mapCol_cols, rowValid_rowMapAt_not_required _ r0 other_not_required]
    exact hval r0 h0
  · exact hval

set_option maxHeartbeats 2000000 in
/-- Every record the pipeline emits would pass required-field validation
again (for any CSV-shaped, i.e. textual, well-formed input). -/
theorem clean_rows_valid (f : Frame) (hwf : f.WF) (htex : f.Textual) :
    ∀ r ∈ (clean_dataset f).rows, rowValid (clean_dataset f).cols r = true := by
  have hw1 : (dedupStage f).WF := WF_dedupStage hwf
  have ht1 : (dedupStage f).Textual := fun r hr => htex r (mem_dedupAux_sub hr)
  have hw2 : (lowerStage (dedupStage f)).WF := WF_lowerStage hw1
  have ht2 : (lowerStage (dedupStage f)).Textual := ht1
  have hcur2 := textual_getC ht2 currency_col
  have hcty2 := textual_getC ht2 country_col
  have hw3 := WF_parseStage hw2
  have hcur3 := holdsAt_parseStage (P := fun c => c.isTextual = true) currency_ne_salary hcur2
  have hcty3 := holdsAt_parseStage (P := fun c => c.isTextual = true) country_ne_salary hcty2
  have hw4 := WF_bonusStage hw3
  have hcur4 := holdsAt_bonusStage (P := fun c => c.isTextual = true) currency_ne_bonus hcur3
  have hcty4 := holdsAt_bonusStage (P := fun c => c.isTextual = true) country_ne_bonus hcty3
  have hw5 := WF_requiredStage hw4
  have hval5 : ∀ r ∈ (requiredStage (bonusStage (parseStage (lowerStage (dedupStage f))))).rows,
      rowValid (requiredStage (bonusStage (parseStage (lowerStage (dedupStage f))))).cols r
        = true := by
    intro r hr
    rw [requiredStage_cols]
    rw [requiredStage_rows] at hr
    exact (List.mem_filter.mp hr).2
  have hcur5 := holdsAt_requiredStage (P := fun c => c.isTextual = true) hcur4
  have hcty5 := holdsAt_requiredStage (P := fun c => c.isTextual = true) hcty4
  have hw6 := WF_outlierStage hw5
  have hval6' : ∀ r ∈ (outlierStage (requiredStage (bonusStage (parseStage (lowerStage
      (dedupStage f)))))).rows,
      rowValid (outlierStage (requiredStage (bonusStage (parseStage (lowerStage
        (dedupStage f)))))).cols r = true := by
    intro r hr
    rw [outlierStage_cols]
    exact hval5 r (mem_outlierStage_sub hr)
  have hcur6 := holdsAt_outlierStage (P := fun c => c.isTextual = true) hcur5
  have hcty6 := holdsAt_outlierStage (P := fun c => c.isTextual = true) hcty5
  have hval7 := rowValid_all_currencyStage hw6 hcur6 hval6'
  have hcty7 := holdsAt_currencyStage (P := fun c => c.isTextual = true) country_ne_currency hcty6
  have hw7 := WF_currencyStage hw6
  have hval8 := rowValid_all_otherCurrencyStage hval7
  have hcty8 := holdsAt_otherCurrencyStage (P := fun c => c.isTextual = true) country_ne_other hcty7
  have hw8 := WF_otherCurrencyStage hw7
  have hval9 : ∀ r ∈ (countryStage (otherCurrencyStage (currencyStage (outlierStage (requiredStage
      (bonusStage (parseStage (lowerStage (dedupStage f))))))))).rows,
      rowValid (countryStage (otherCurrencyStage (currencyStage (outlierStage (requiredStage
        (bonusStage (parseStage (lowerStage (dedupStage f))))))))).cols r = true :=
    rowValid_all_countryStage hw8 hcty8 hval8
  exact hval9

/-! ## Bonus-column invariant after `fillna(0)` -/

theorem holdsAt_countryStage {P : Cell → Prop} {f : Frame} {d : String}
    (hds : d ≠ country_col)
    (h : ∀ r ∈ f.rows, P (getC f.cols r d)) :
    ∀ r ∈ (countryStage f).rows, P (getC (countryStage f).cols r d) := by
  unfold countryStage
  split
  · exact holdsAt_mapCol_ne _ hds h
  · exact h

theorem bonus_ne_currency : bonus_col ≠ currency_col := by decide

theorem bonus_ne_other : bonus_col ≠ other_currency_col := by decide

theorem bonus_ne_country : bonus_col ≠ country_col := by decide

theorem bonusStage_not_na {f : Frame} (hwf : f.WF) (hmem : bonus_col ∈ f.cols) :
    ∀ r ∈ (bonusStage f).rows, getC (bonusStage f).cols r bonus_col ≠ Cell.na := by
  unfold bonusStage
  rw [if_pos hmem]
  intro r hr
  rcases mem_mapCol hr with ⟨r0, h0, rfl⟩
  rw [mapCol_cols, getC_rowMapAt_self _ r0 hmem (hwf r0 h0)]
  cases getC f.cols r0 bonus_col <;> simp [fillnaZero]

set_option maxHeartbeats 2000000 in
/-- After the pipeline, no surviving record has a missing bonus cell
(provided the bonus column is present once labels are lower-cased). -/
theorem clean_bonus_not_na (f : Frame) (hwf : f.WF)
    (hmem : bonus_col ∈ (lowerStage (dedupStage f)).cols) :
    ∀ r ∈ (clean_dataset f).rows, getC (clean_dataset f).cols r bonus_col ≠ Cell.na := by
  have hw3 := WF_parseStage (WF_lowerStage (WF_dedupStage hwf))
  have hmem3 : bonus_col ∈ (parseStage (lowerStage (dedupStage f))).cols := by
    rw [parseStage_cols]
    exact hmem
  have h4 := bonusStage_not_na hw3 hmem3
  have h5 := holdsAt_requiredStage (P := fun c => c ≠ Cell.na) h4
  have h6 := holdsAt_outlierStage (P := fun c => c ≠ Cell.na) h5
  have h7 := holdsAt_currencyStage (P := fun c => c ≠ Cell.na) bonus_ne_currency h6
  have h8 := holdsAt_otherCurrencyStage (P := fun c => c ≠ Cell.na) bonus_ne_other h7
  have h9 : ∀ r ∈ (countryStage (otherCurrencyStage (currencyStage (outlierStage (requiredStage
      (bonusStage (parseStage (lowerStage (dedupStage f))))))))).rows,
      getC (countryStage (otherCurrencyStage (currencyStage (outlierStage (requiredStage
        (bonusStage (parseStage (lowerStage (dedupStage f))))))))).cols r bonus_col ≠ Cell.na :=
    holdsAt_countryStage (P := fun c => c ≠ Cell.na) bonus_ne_country h8
  exact h9

/-! ## Outlier filter: square-free band versus the 3-sigma band -/

theorem keep3sigma_iff (mu s sigma : ℚ) (hs : 0 ≤ sigma) :
    keep3sigma mu (sigma ^ 2) s =
      decide (max 0 (mu - 3 * sigma) ≤ s ∧ s ≤ mu + 3 * sigma) := by
  rw [keep3sigma, decide_eq_decide]
  constructor
  · rintro ⟨h0, h1, h2⟩
    refine ⟨?_, ?_⟩
    · rw [max_le_iff]
      refine ⟨h0, ?_⟩
      rcases h1 with h | h
      · nlinarith
      · nlinarith [sq_nonneg (mu - s - 3 * sigma), sq_nonneg (mu - s + 3 * sigma)]
    · rcases h2 with h | h
      · nlinarith
      · nlinarith [sq_nonneg (s - mu - 3 * sigma), sq_nonneg (s - mu + 3 * sigma)]
  · rintro ⟨hmax, hub⟩
    rw [max_le_iff] at hmax
    refine ⟨hmax.1, ?_, ?_⟩
    · by_cases hm : mu ≤ s
      · exact Or.inl hm
      · exact Or.inr (by nlinarith [hmax.2])
    · by_cases hm : s ≤ mu
      · exact Or.inl hm
      · exact Or.inr (by nlinarith [hub])

/-- With `sigma = sqrt v` in hand, the outlier stage is exactly the
single-pass inclusive band filter `max(0, mu - 3 sigma) <= s <= mu + 3 sigma`. -/
theorem outlierStage_rows_spec (f : Frame) (sigma : ℚ)
    (hmem : salary_col ∈ f.cols)
    (hv : sampleVar (salariesOf f) = some (sigma ^ 2))
    (hs : 0 ≤ sigma) :
    (outlierStage f).rows = f.rows.filter (fun r =>
      match getC f.cols r salary_col with
      | Cell.num s => decide (max 0 (meanQ (salariesOf f) - 3 * sigma) ≤ s ∧
          s ≤ meanQ (salariesOf f) + 3 * sigma)
      | _ => false) := by
  unfold outlierStage
  rw [if_pos hmem, hv]
  show (filterRows _ f).rows = _
  unfold filterRows
  apply List.filter_congr
  intro r _
  show (match getC f.cols r salary_col with
    | Cell.num s => keep3sigma (meanQ (salariesOf f)) (sigma ^ 2) s
    | _ => false) = _
  cases getC f.cols r salary_col with
  | na => rfl
  | str s => rfl
  | num s => exact keep3sigma_iff (meanQ (salariesOf f)) s sigma hs

theorem salariesOf_length_le (f : Frame) :
    (salariesOf f).length ≤ f.rows.length :=
  List.length_filterMap_le _ _

theorem sampleVar_none_of_short {xs : List ℚ} (h : xs.length ≤ 1) :
    sampleVar xs = none := by
  unfold sampleVar
  rw [if_neg]
  omega

/-- When the standard deviation is undefined (fewer than two numeric
salaries), the NaN bounds reject every row. -/
theorem outlierStage_empty (f : Frame) (hmem : salary_col ∈ f.cols)
    (hvar : sampleVar (salariesOf f) = none) :
    outlierStage f = ⟨f.cols, []⟩ := by
  unfold outlierStage
  rw [if_pos hmem, hvar]

theorem currencyStage_rows_nil {f : Frame} (h : f.rows = []) :
    (currencyStage f).rows = [] := by
  unfold currencyStage mapCol
  split <;> simp [h]

theorem otherCurrencyStage_rows_nil {f : Frame} (h : f.rows = []) :
    (otherCurrencyStage f).rows = [] := by
  unfold otherCurrencyStage mapCol
  split <;> simp [h]

theorem countryStage_rows_nil {f : Frame} (h : f.rows = []) :
    (countryStage f).rows = [] := by
  unfold countryStage mapCol
  split <;> simp [h]

/-! ## Missing-column no-ops -/

theorem parseStage_noop {f : Frame} (h : salary_col ∉ f.cols) : parseStage f = f := by
  unfold parseStage
  rw [if_neg h]

theorem outlierStage_noop {f : Frame} (h : salary_col ∉ f.cols) : outlierStage f = f := by
  unfold outlierStage
  rw [if_neg h]

theorem bonusStage_noop {f : Frame} (h : bonus_col ∉ f.cols) : bonusStage f = f := by
  unfold bonusStage
  rw [if_neg h]

theorem currencyStage_noop {f : Frame} (h : currency_col ∉ f.cols) : currencyStage f = f := by
  unfold currencyStage
  rw [if_neg h]

theorem otherCurrencyStage_noop {f : Frame} (h : other_currency_col ∉ f.cols) :
    otherCurrencyStage f = f := by
  unfold otherCurrencyStage
  rw [if_neg h]

theorem countryStage_noop {f : Frame} (h : country_col ∉ f.cols) : countryStage f = f := by
  unfold countryStage
  rw [if_neg h]

theorem checkRequired_noop {f : Frame} {fld : String} (h : fld ∉ f.cols) :
    checkRequired fld f = f := by
  unfold checkRequired
  rw [if_neg h]

/-! ## Unfolded forms of the text canonicalizers on string cells -/

theorem countryCanon_str (s : String) :
    countryCanonCell (Cell.str s) =
      (if pystrip (collapseWs (pystrip s)) ≠ "" then
        match tableGet country_mapping_lower (pystrip (pyLower (collapseWs (pystrip s)))) with
        | some v => Cell.str v
        | none => Cell.str (pyTitle (pystrip (collapseWs (pystrip s))))
      else Cell.str (collapseWs (pystrip s))) := rfl

theorem otherCanon_str (s : String) :
    otherCurrencyCanonCell (Cell.str s) =
      (if pystrip (pystrip s) ≠ "" then
        match tableGet other_currency_mapping_lower (pystrip (pyLower (pystrip s))) with
        | some v => Cell.str v
        | none => Cell.str (pyUpper (pystrip (pystrip s)))
      else Cell.str (pystrip s)) := rfl

theorem collapseWs_empty : collapseWs "" = "" := rfl

/-- An alias hit on the country table: the lookup key is the collapsed,
trimmed, lower-cased input, so the hit only depends on that normal form. -/
theorem countryCanon_found {s : String} {v : String}
    (hv : tableGet country_mapping_lower (pystrip (pyLower (collapseWs (pystrip s)))) = some v) :
    countryCanonCell (Cell.str s) = Cell.str v := by
  rw [countryCanon_str]
  have hguard : pystrip (collapseWs (pystrip s)) ≠ "" := by
    intro hg
    rw [pystrip_pyLower_empty hg, tableGet_country_empty] at hv
    exact Option.noConfusion hv
  rw [if_pos hguard, hv]

/-- No alias hit: trimmed, whitespace-collapsed, title-cased fallback. -/
theorem countryCanon_unmatched {s : String}
    (hne : ∃ c ∈ s.data, isWs c = false)
    (hnone : tableGet country_mapping_lower
      (pystrip (pyLower (collapseWs (pystrip s)))) = none) :
    countryCanonCell (Cell.str s) = Cell.str (pyTitle (pystrip (collapseWs (pystrip s)))) := by
  rw [countryCanon_str]
  have hguard : pystrip (collapseWs (pystrip s)) ≠ "" :=
    collapse_pystrip_ne_empty ((pystrip_ne_empty_iff s).mpr hne)
  rw [if_pos hguard, hnone]

/-- Whitespace-only country input is stripped to the empty string (and so
is not preserved verbatim). -/
theorem countryCanon_ws_only {s : String} (hws : ∀ c ∈ s.data, isWs c = true) :
    countryCanonCell (Cell.str s) = Cell.str "" := by
  rw [countryCanon_str]
  have h1 : pystrip s = "" := (pystrip_eq_empty_iff s).mpr hws
  rw [h1, collapseWs_empty]
  decide

/-- An alias hit on the `other`-currency table, keyed by the stripped
lower-cased input. -/
theorem otherCanon_found {s : String} {v : String}
    (hv : tableGet other_currency_mapping_lower (pystrip (pyLower (pystrip s))) = some v) :
    otherCurrencyCanonCell (Cell.str s) = Cell.str v := by
  rw [otherCanon_str]
  have hguard : pystrip (pystrip s) ≠ "" := by
    intro hg
    rw [pystrip_pyLower_empty hg, tableGet_other_empty] at hv
    exact Option.noConfusion hv
  rw [if_pos hguard, hv]

/-- No alias hit: the value resolves to its trimmed upper-cased form. -/
theorem otherCanon_unmatched {s : String}
    (hne : ∃ c ∈ s.data, isWs c = false)
    (hnone : tableGet other_currency_mapping_lower (pystrip (pyLower (pystrip s))) = none) :
    otherCurrencyCanonCell (Cell.str s) = Cell.str (pyUpper (pystrip s)) := by
  rw [otherCanon_str]
  have hguard : pystrip (pystrip s) ≠ "" := by
    rw [pystrip_idem]
    exact (pystrip_ne_empty_iff s).mpr hne
  rw [if_pos hguard, hnone, pystrip_idem]

/-! ## The claims -/

set_option maxRecDepth 4000

/-- C1: the outlier filter, applied to the record set surviving
required-field validation, computes the mean and the sample standard
deviation (n-1 denominator, via `sampleVar`) of SALARY over exactly that
set and retains, in a single pass, exactly the records whose salary `s`
satisfies `max(0, mu - 3*sigma) <= s <= mu + 3*sigma`, both bounds
inclusive (`sigma` enters as any nonnegative square root of the sample
variance). -/
theorem claim_outlier_filter_band (h : Frame) (sigma : ℚ)
    (hmem : salary_col ∈ (requiredStage h).cols)
    (hv : sampleVar (salariesOf (requiredStage h)) = some (sigma ^ 2))
    (hs : 0 ≤ sigma) :
    (outlierStage (requiredStage h)).rows = (requiredStage h).rows.filter (fun r =>
      match getC (requiredStage h).cols r salary_col with
      | Cell.num s => decide (max 0 (meanQ (salariesOf (requiredStage h)) - 3 * sigma) ≤ s ∧
          s ≤ meanQ (salariesOf (requiredStage h)) + 3 * sigma)
      | _ => false) :=
  outlierStage_rows_spec (requiredStage h) sigma hmem hv hs

theorem claim_outlier_filter_band_witness :
    salary_col ∈ (requiredStage wC1).cols ∧
    sampleVar (salariesOf (requiredStage wC1)) = some ((2 : ℚ) ^ 2) ∧
    (0 : ℚ) ≤ 2 ∧
    (outlierStage (requiredStage wC1)).rows = (requiredStage wC1).rows.filter (fun r =>
      match getC (requiredStage wC1).cols r salary_col with
      | Cell.num s => decide (max 0 (meanQ (salariesOf (requiredStage wC1)) - 3 * 2) ≤ s ∧
          s ≤ meanQ (salariesOf (requiredStage wC1)) + 3 * 2)
      | _ => false) := by
  have h1 : salary_col ∈ (requiredStage wC1).cols := by with_unfolding_all decide
  have h2 : sampleVar (salariesOf (requiredStage wC1)) = some ((2 : ℚ) ^ 2) := by
    with_unfolding_all decide
  have h3 : (0 : ℚ) ≤ 2 := by norm_num
  exact ⟨h1, h2, h3, claim_outlier_filter_band wC1 2 h1 h2 h3⟩

/-- C2 counterexample: the pipeline is not idempotent.  On `cexC2` the
first run keeps both records but canonicalizes both countries to
`United States`, making the rows identical; the second run then drops one
as a duplicate, which leaves a single survivor, whose (undefined) sample
standard deviation makes the re-run outlier filter drop it too: two
additional rows vanish. -/
theorem claim_idempotence_counterexample :
    (clean_dataset cexC2).rows.length = 2 ∧
    (clean_dataset (clean_dataset cexC2)).rows.length = 0 ∧
    (clean_dataset (clean_dataset cexC2)).rows.length ≠ (clean_dataset cexC2).rows.length := by
  refine ⟨?_, ?_, ?_⟩
  · with_unfolding_all decide
  · with_unfolding_all decide
  · with_unfolding_all decide

/-- C2 (amended): re-running the pipeline on its own output removes no
row through required-field validation — every record the pipeline emits
(from a well-formed, textual input, as `read_csv` produces) still passes
every required-field check; the original claim fails only because the
second run's deduplication (after canonicalization merges spellings) and
the re-computed 3-sigma trim can remove rows, as the counterexample
shows. -/
theorem claim_idempotence_amended (f : Frame) (hwf : f.WF) (htex : f.Textual) :
    ∀ r ∈ (clean_dataset f).rows, rowValid (clean_dataset f).cols r = true :=
  clean_rows_valid f hwf htex

theorem claim_idempotence_amended_witness :
    cexC2.WF ∧ cexC2.Textual ∧
    ∀ r ∈ (clean_dataset cexC2).rows, rowValid (clean_dataset cexC2).cols r = true := by
  have hwf : cexC2.WF := by
    show ∀ r ∈ cexC2.rows, r.length = cexC2.cols.length
    with_unfolding_all decide
  have htex : cexC2.Textual := by
    show ∀ r ∈ cexC2.rows, ∀ c ∈ r, c.isTextual = true
    with_unfolding_all decide
  exact ⟨hwf, htex, claim_idempotence_amended cexC2 hwf htex⟩

/-- C3 counterexample: a record whose bonus cell holds the non-numeric
text `n/a` survives the pipeline with that text untouched — the bonus
stage is only `fillna(0)`, so after cleaning not every surviving bonus
cell is a number. -/
theorem claim_bonus_default_counterexample :
    (clean_dataset cexC3).rows.length = 2 ∧
    getC (clean_dataset cexC3).cols ((clean_dataset cexC3).rows.getD 0 []) bonus_col
      = Cell.str "n/a" ∧
    ((clean_dataset cexC3).rows.all
      (fun r => (getC (clean_dataset cexC3).cols r bonus_col).isNum)) = false := by
  refine ⟨?_, ?_, ?_⟩
  · with_unfolding_all decide
  · with_unfolding_all decide
  · with_unfolding_all decide

/-- C3 (amended): the bonus stage defaults absent (NaN) bonus cells to
the number 0 and passes any other cell — including non-numeric text —
through unchanged; consequently no surviving record has a missing bonus
cell, but non-numeric bonus text is not coerced to a float. -/
theorem claim_bonus_default_amended (f : Frame) (hwf : f.WF)
    (hmem : bonus_col ∈ (lowerStage (dedupStage f)).cols) :
    fillnaZero Cell.na = Cell.num 0 ∧
    (∀ s, fillnaZero (Cell.str s) = Cell.str s) ∧
    ∀ r ∈ (clean_dataset f).rows, getC (clean_dataset f).cols r bonus_col ≠ Cell.na :=
  ⟨rfl, fun _ => rfl, clean_bonus_not_na f hwf hmem⟩

theorem claim_bonus_default_amended_witness :
    cexC3.WF ∧ bonus_col ∈ (lowerStage (dedupStage cexC3)).cols ∧
    ∀ r ∈ (clean_dataset cexC3).rows, getC (clean_dataset cexC3).cols r bonus_col
      ≠ Cell.na := by
  have hwf : cexC3.WF := by
    show ∀ r ∈ cexC3.rows, r.length = cexC3.cols.length
    with_unfolding_all decide
  have hmem : bonus_col ∈ (lowerStage (dedupStage cexC3)).cols := by
    with_unfolding_all decide
  exact ⟨hwf, hmem, (claim_bonus_default_amended cexC3 hwf hmem).2.2⟩

/-- C4: the record validator keeps exactly the rows on which every
required field whose bound column exists passes its check (`rowValid`:
SALARY present, numeric and strictly positive; AGE, JOB_TITLE, CURRENCY,
COUNTRY present and non-blank after trimming — so a record with all
required fields in order is kept regardless of optional fields), and any
permutation of the field-check order produces the same frame. -/
theorem claim_required_validator (f : Frame) (fs : List String)
    (hperm : required_fields.Perm fs) :
    (requiredFold fs f).rows = f.rows.filter (fun r => rowValid f.cols r) ∧
    requiredFold fs f = requiredStage f := by
  have he : requiredFold fs f = requiredStage f :=
    (requiredFold_perm required_fields fs f hperm).symm
  refine ⟨?_, he⟩
  rw [he]
  exact requiredStage_rows f

theorem claim_required_validator_witness :
    required_fields.Perm [country_col, currency_col, salary_col, job_title_col, age_col] ∧
    (requiredFold [country_col, currency_col, salary_col, job_title_col, age_col] wC4).rows
      = wC4.rows.filter (fun r => rowValid wC4.cols r) ∧
    requiredFold [country_col, currency_col, salary_col, job_title_col, age_col] wC4
      = requiredStage wC4 := by
  have hperm : required_fields.Perm
      [country_col, currency_col, salary_col, job_title_col, age_col] := by
    with_unfolding_all decide
  exact ⟨hperm, (claim_required_validator wC4 _ hperm).1,
    (claim_required_validator wC4 _ hperm).2⟩

/-- C5 counterexample: on the `ALL` partition with the currency column
present, `salary_benchmarking` does not convert salaries to USD before
grouping by job title, and its note reports the amounts as being "in
ALL" rather than USD-converted — against the claim that every
aggregation report converts. -/
theorem claim_usd_conversion_counterexample :
    Analytics.CURRENCY_COL ∈ cexC5.cols ∧
    Analytics.benchmarkingGroups cexC5 ≠
      Analytics.groupedVals cexC5 Analytics.JOB_TITLE_COL Analytics.usdSalary ∧
    Analytics.benchmarkingNote "ALL" ≠ Analytics.usdSalaryNote := by
  refine ⟨?_, ?_, ?_⟩
  · with_unfolding_all decide
  · with_unfolding_all decide
  · with_unfolding_all decide

/-- C5 (amended): on the `ALL` partition with a currency-code column
present, the age, geographic and bonus analyses convert every
salary/bonus value to USD row-wise through the exchange-rate table (with
the country-table fallback when the code is `OTHER`) before grouping,
and state the USD conversion in their report note; salary benchmarking
by job title, by contrast, groups the raw unconverted salaries. -/
theorem claim_usd_conversion_amended (f : Frame) (cur : String) (hall : cur = "ALL")
    (hm : Analytics.CURRENCY_COL ∈ f.cols) :
    Analytics.ageGroups f cur = Analytics.groupedVals f Analytics.AGE_COL Analytics.usdSalary ∧
    Analytics.ageNote f cur = Analytics.usdSalaryNote ∧
    Analytics.geoGroups f cur
      = Analytics.groupedVals f Analytics.COUNTRY_COL Analytics.usdSalary ∧
    Analytics.geoNote f cur = Analytics.usdSalaryNote ∧
    Analytics.bonusValues f cur = f.rows.map (fun r =>
      Analytics.bonusNumeric f.cols r * Analytics.getExchangeRate f.cols r) ∧
    Analytics.bonusNote f cur = Analytics.usdBonusNote ∧
    Analytics.benchmarkingGroups f
      = Analytics.groupedVals f Analytics.JOB_TITLE_COL Analytics.rawSalary ∧
    (∀ cols r, getC cols r Analytics.CURRENCY_COL = Cell.str "OTHER" →
      Analytics.getExchangeRate cols r =
        (match getC cols r Analytics.COUNTRY_COL with
         | Cell.str k => (tableGet Analytics.COUNTRY_CURRENCY_MAP k).getD 1
         | _ => 1)) := by
  subst hall
  have hc : ("ALL" = "ALL" ∧ Analytics.CURRENCY_COL ∈ f.cols) := ⟨rfl, hm⟩
  refine ⟨?_, ?_, ?_, ?_, ?_, ?_, rfl, ?_⟩
  · unfold Analytics.ageGroups
    rw [if_pos hc]
  · unfold Analytics.ageNote
    rw [if_pos hc]
  · unfold Analytics.geoGroups
    rw [if_pos hc]
  · unfold Analytics.geoNote
    rw [if_pos hc]
  · unfold Analytics.bonusValues
    rw [if_pos hc]
  · unfold Analytics.bonusNote
    rw [if_pos hc]
  · intro cols r h
    unfold Analytics.getExchangeRate
    rw [h]
    simp

theorem claim_usd_conversion_amended_witness :
    Analytics.CURRENCY_COL ∈ wC5.cols ∧
    Analytics.ageGroups wC5 "ALL"
      = Analytics.groupedVals wC5 Analytics.AGE_COL Analytics.usdSalary ∧
    Analytics.ageNote wC5 "ALL" = Analytics.usdSalaryNote := by
  have hm : Analytics.CURRENCY_COL ∈ wC5.cols := by with_unfolding_all decide
  have h := claim_usd_conversion_amended wC5 "ALL" rfl hm
  exact ⟨hm, h.1, h.2.1⟩

/-- C6: deduplication is the first pipeline stage (everything else runs
on its output), judged on raw cell values: of `k` exact copies of a row
exactly `k - 1` are removed (each row's multiplicity drops to at most
one) and the survivors are the first occurrences in original order. -/
theorem claim_dedup_first_occurrence (f : Frame) (r : Row) :
    (dedupStage f).rows.count r = min (f.rows.count r) 1 ∧
    (dedupStage f).rows = specKeepFirstOccurrences f.rows ∧
    clean_dataset f = stagesAfterDedup (dedupStage f) :=
  ⟨count_dedupRows f.rows r, dedupRows_eq_spec f.rows, rfl⟩

/-- C7 counterexample: a whitespace-only country value does not pass
through unchanged — the stage strips it to the empty string. -/
theorem claim_country_canon_counterexample :
    countryCanonCell (Cell.str " ") = Cell.str "" ∧ Cell.str "" ≠ Cell.str " " := by
  refine ⟨?_, ?_⟩
  · with_unfolding_all decide
  · decide

/-- C7 (amended): country canonicalization looks its alias table up under
trimming, internal-whitespace collapapsing and lower-casing (so " us ",
"US" and "u.s." all resolve to "United States"); an input matching no
alias becomes its trimmed, whitespace-collapsed, title-cased form; a
missing or empty input passes through unchanged; a whitespace-only input
is stripped to the empty string (not preserved verbatim), and no value is
invented for it. -/
theorem claim_country_canon_amended :
    countryCanonCell Cell.na = Cell.na ∧
    countryCanonCell (Cell.str "") = Cell.str "" ∧
    (∀ s : String, (∀ c ∈ s.data, isWs c = true) →
      countryCanonCell (Cell.str s) = Cell.str "") ∧
    countryCanonCell (Cell.str " us ") = Cell.str "United States" ∧
    countryCanonCell (Cell.str "US") = Cell.str "United States" ∧
    countryCanonCell (Cell.str "u.s.") = Cell.str "United States" ∧
    (∀ s v, tableGet country_mapping_lower
        (pystrip (pyLower (collapseWs (pystrip s)))) = some v →
      countryCanonCell (Cell.str s) = Cell.str v) ∧
    (∀ s, (∃ c ∈ s.data, isWs c = false) →
      tableGet country_mapping_lower (pystrip (pyLower (collapseWs (pystrip s)))) = none →
      countryCanonCell (Cell.str s)
        = Cell.str (pyTitle (pystrip (collapseWs (pystrip s))))) := by
  refine ⟨rfl, by with_unfolding_all decide, fun s hws => countryCanon_ws_only hws,
    ?_, ?_, ?_, fun s v hv => countryCanon_found hv,
    fun s hne hnone => countryCanon_unmatched hne hnone⟩
  · with_unfolding_all decide
  · with_unfolding_all decide
  · with_unfolding_all decide

theorem claim_country_canon_amended_witness :
    ((∀ c ∈ ("  ".data), isWs c = true) ∧
      countryCanonCell (Cell.str "  ") = Cell.str "") ∧
    (tableGet country_mapping_lower
        (pystrip (pyLower (collapseWs (pystrip " U.S.A. ")))) = some "United States" ∧
      countryCanonCell (Cell.str " U.S.A. ") = Cell.str "United States") ∧
    ((∃ c ∈ ("new  zealand".data), isWs c = false) ∧
      tableGet country_mapping_lower
        (pystrip (pyLower (collapseWs (pystrip "new  zealand")))) = none ∧
      countryCanonCell (Cell.str "new  zealand")
        = Cell.str (pyTitle (pystrip (collapseWs (pystrip "new  zealand"))))) := by
  have hws : ∀ c ∈ ("  ".data), isWs c = true := by with_unfolding_all decide
  have hv : tableGet country_mapping_lower
      (pystrip (pyLower (collapseWs (pystrip " U.S.A. ")))) = some "United States" := by
    with_unfolding_all decide
  have hne : ∃ c ∈ ("new  zealand".data), isWs c = false := by with_unfolding_all decide
  have hnone : tableGet country_mapping_lower
      (pystrip (pyLower (collapseWs (pystrip "new  zealand")))) = none := by
    with_unfolding_all decide
  exact ⟨⟨hws, claim_country_canon_amended.2.2.1 "  " hws⟩,
    ⟨hv, claim_country_canon_amended.2.2.2.2.2.2.1 " U.S.A. " "United States" hv⟩,
    ⟨hne, hnone, claim_country_canon_amended.2.2.2.2.2.2.2 "new  zealand" hne hnone⟩⟩

/-- C8: currency alias resolution on the free-text `other currency` field
is case-insensitive: any spelling whose stripped, lower-cased form is
"rmb" or "chinese yuan" resolves to `CNY`, and a non-blank string
matching no alias resolves to its trimmed upper-cased form unchanged. -/
theorem claim_currency_alias :
    (∀ s, pystrip (pyLower (pystrip s)) = "rmb" →
      otherCurrencyCanonCell (Cell.str s) = Cell.str "CNY") ∧
    (∀ s, pystrip (pyLower (pystrip s)) = "chinese yuan" →
      otherCurrencyCanonCell (Cell.str s) = Cell.str "CNY") ∧
    (∀ s, (∃ c ∈ s.data, isWs c = false) →
      tableGet other_currency_mapping_lower (pystrip (pyLower (pystrip s))) = none →
      otherCurrencyCanonCell (Cell.str s) = Cell.str (pyUpper (pystrip s))) := by
  refine ⟨?_, ?_, fun s hne hnone => otherCanon_unmatched hne hnone⟩
  · intro s hk
    apply otherCanon_found
    rw [hk]
    with_unfolding_all decide
  · intro s hk
    apply otherCanon_found
    rw [hk]
    with_unfolding_all decide

theorem claim_currency_alias_witness :
    (pystrip (pyLower (pystrip " RMB ")) = "rmb" ∧
      otherCurrencyCanonCell (Cell.str " RMB ") = Cell.str "CNY") ∧
    (pystrip (pyLower (pystrip "Chinese YUAN")) = "chinese yuan" ∧
      otherCurrencyCanonCell (Cell.str "Chinese YUAN") = Cell.str "CNY") ∧
    ((∃ c ∈ (" zorkmid Coins ".data), isWs c = false) ∧
      tableGet other_currency_mapping_lower
        (pystrip (pyLower (pystrip " zorkmid Coins "))) = none ∧
      otherCurrencyCanonCell (Cell.str " zorkmid Coins ")
        = Cell.str (pyUpper (pystrip " zorkmid Coins "))) := by
  have h1 : pystrip (pyLower (pystrip " RMB ")) = "rmb" := by with_unfolding_all decide
  have h2 : pystrip (pyLower (pystrip "Chinese YUAN")) = "chinese yuan" := by
    with_unfolding_all decide
  have hne : ∃ c ∈ (" zorkmid Coins ".data), isWs c = false := by with_unfolding_all decide
  have hnone : tableGet other_currency_mapping_lower
      (pystrip (pyLower (pystrip " zorkmid Coins "))) = none := by with_unfolding_all decide
  exact ⟨⟨h1, claim_currency_alias.1 " RMB " h1⟩,
    ⟨h2, claim_currency_alias.2.1 "Chinese YUAN" h2⟩,
    ⟨hne, hnone, claim_currency_alias.2.2 " zorkmid Coins " hne hnone⟩⟩

/-- C9: for every frame, a stage whose bound column is absent is a no-op
(the frame passes through unchanged, no error is possible), and this
holds independently for every canonical field: parsing and outlier
trimming for SALARY, the bonus default, the currency, other-currency and
country canonicalizers, and each individual required-field check. -/
theorem claim_missing_column_noop (f : Frame) :
    (salary_col ∉ f.cols → parseStage f = f ∧ outlierStage f = f) ∧
    (bonus_col ∉ f.cols → bonusStage f = f) ∧
    (currency_col ∉ f.cols → currencyStage f = f) ∧
    (other_currency_col ∉ f.cols → otherCurrencyStage f = f) ∧
    (country_col ∉ f.cols → countryStage f = f) ∧
    (∀ fld, fld ∉ f.cols → checkRequired fld f = f) :=
  ⟨fun h => ⟨parseStage_noop h, outlierStage_noop h⟩, fun h => bonusStage_noop h,
   fun h => currencyStage_noop h, fun h => otherCurrencyStage_noop h,
   fun h => countryStage_noop h, fun _ h => checkRequired_noop h⟩

theorem claim_missing_column_noop_witness :
    salary_col ∉ wC9.cols ∧ parseStage wC9 = wC9 ∧ outlierStage wC9 = wC9 ∧
    bonus_col ∉ wC9.cols ∧ bonusStage wC9 = wC9 ∧
    currency_col ∉ wC9.cols ∧ currencyStage wC9 = wC9 ∧
    other_currency_col ∉ wC9.cols ∧ otherCurrencyStage wC9 = wC9 ∧
    country_col ∉ wC9.cols ∧ countryStage wC9 = wC9 ∧
    age_col ∉ wC9.cols ∧ checkRequired age_col wC9 = wC9 := by
  have h1 : salary_col ∉ wC9.cols := by with_unfolding_all decide
  have h2 : bonus_col ∉ wC9.cols := by with_unfolding_all decide
  have h3 : currency_col ∉ wC9.cols := by with_unfolding_all decide
  have h4 : other_currency_col ∉ wC9.cols := by with_unfolding_all decide
  have h5 : country_col ∉ wC9.cols := by with_unfolding_all decide
  have h6 : age_col ∉ wC9.cols := by with_unfolding_all decide
  have h := claim_missing_column_noop wC9
  exact ⟨h1, (h.1 h1).1, (h.1 h1).2, h2, h.2.1 h2, h3, h.2.2.1 h3, h4, h.2.2.2.1 h4,
    h5, h.2.2.2.2.1 h5, h6, h.2.2.2.2.2 age_col h6⟩

/-- C10: when exactly one record survives required-field validation, the
sample standard deviation over the single salary is undefined (`none`,
the NaN of the model), the NaN upper bound admits no salary, and the
outlier stage — and hence the whole pipeline — returns an empty record
set without error. -/
theorem claim_single_survivor_empty (f : Frame)
    (hmem : salary_col ∈ (validatedStage f).cols)
    (hone : (validatedStage f).rows.length = 1) :
    (clean_dataset f).rows = [] := by
  have hs : (salariesOf (validatedStage f)).length ≤ 1 := by
    have := salariesOf_length_le (validatedStage f)
    omega
  have hvar := sampleVar_none_of_short hs
  have h6 : outlierStage (validatedStage f) = ⟨(validatedStage f).cols, []⟩ :=
    outlierStage_empty _ hmem hvar
  show (countryStage (otherCurrencyStage (currencyStage
    (outlierStage (validatedStage f))))).rows = []
  apply countryStage_rows_nil
  apply otherCurrencyStage_rows_nil
  apply currencyStage_rows_nil
  rw [h6]

theorem claim_single_survivor_empty_witness :
    salary_col ∈ (validatedStage wC10).cols ∧
    (validatedStage wC10).rows.length = 1 ∧
    (clean_dataset wC10).rows = [] := by
  have h1 : salary_col ∈ (validatedStage wC10).cols := by with_unfolding_all decide
  have h2 : (validatedStage wC10).rows.length = 1 := by with_unfolding_all decide
  exact ⟨h1, h2, claim_single_survivor_empty wC10 h1 h2⟩

end DataSetCleanup
